import Mathlib

/-!
Verification of the Bigstack codebase-AI-agent core: the chunk-extraction
pipeline (`src/services/codebase-processor.js`), the retrieval/ranking engine
and context assembler (`RAGService` in `src/services/rag-service.js`), and the
ingestion batch loop (`src/api/repository-api.js`).

Embedding conventions:
* JavaScript strings are modelled as `List Char` (`Str`).  JS `.length`,
  `.substring` count UTF-16 code units while we count Unicode characters; the
  two agree on all inputs without astral-plane characters.
* JS `\s` and `String.prototype.trim` also accept `\v`, `\f` and Unicode
  spaces; we model the common ASCII whitespace (space, tab, CR, LF), on which
  all of the source's inputs agree.
* JS numbers (IEEE doubles) are modelled as `ℚ`; the only arithmetic the core
  performs on scores is multiplication by 1.5 (exact in binary floating point)
  and comparison against the literal 0.3.
* The regular expressions of the chunk extractor are compiled by hand into
  deterministic prefix matchers; each matcher is annotated with the regex it
  implements.  All regexes involved are backtracking-free because every
  quantified character class is disjoint from the character that follows it.
-/

/-- JavaScript strings, modelled as lists of characters. -/
abbrev Str := List Char

/-- Shorthand: the character list of a Lean string literal. -/
def strL (s : String) : Str := s.toList

/-- ASCII whitespace, modelling JS `\s` / `trim` (see header note). -/
def jsWhitespace (c : Char) : Bool :=
  c = ' ' || c = '\t' || c = '\n' || c = '\r'

/-- JS `String.prototype.trim`. -/
def jsTrim (s : Str) : Str :=
  ((s.dropWhile jsWhitespace).reverse.dropWhile jsWhitespace).reverse

/-- JS `s.startsWith(pre)`. -/
def jsStartsWith (s pre : Str) : Bool := pre.isPrefixOf s

/-- JS `s.includes(sub)` (substring containment). -/
def jsIncludes : Str → Str → Bool
  | [], sub => sub.isEmpty
  | c :: t, sub => sub.isPrefixOf (c :: t) || jsIncludes t sub

/-- JS `s.toLowerCase()` (ASCII case folding). -/
def jsToLower (s : Str) : Str := s.map Char.toLower

/-- JS `content.split('\n')`: always returns at least one (possibly empty)
segment; a trailing newline yields a trailing empty segment. -/
def splitLines : Str → List Str
  | [] => [[]]
  | c :: cs =>
    if c = '\n' then [] :: splitLines cs
    else
      match splitLines cs with
      | [] => [[c]]
      | h :: t => (c :: h) :: t

/-- Number of occurrences of a character, modelling `(line.match(/x/g) || []).length`. -/
def countChar (c : Char) (s : Str) : Nat := (s.filter (· = c)).length

/-- Decimal rendering of a number, modelling JS template interpolation of a
non-negative integer. -/
def natStr (n : Nat) : Str := (Nat.repr n).toList

/-- `['\n']`-intercalation, modelling JS `Array.prototype.join('\n')`. -/
def joinNl (ls : List Str) : Str := List.intercalate ['\n'] ls

/-! ## The RAG service (`rag-service.js`)

Search hits come back from the OpenSearch hybrid query with a raw `score` and
the indexed chunk fields (`chunkType` is the string form of the chunk type as
stored in the index). -/

/-- A raw hybrid-search hit (`searchResults` element in `rag-service.js`).
`functionName` and `className` model the indexed document's
`metadata.functionName` / `metadata.className` (absent is `none`). -/
structure SearchHit where
  score : ℚ
  content : Str
  filePath : Str
  fileName : Str
  chunkType : Str
  functionName : Option Str := none
  className : Option Str := none
deriving DecidableEq, Repr

/-- A hit after intent re-ranking: the hit plus its `adjustedScore`
(`{...chunk, adjustedScore: relevanceScore}`). -/
structure RankedHit extends SearchHit where
  adjustedScore : ℚ
deriving DecidableEq, Repr

/-- `queryLower.includes('setup') || ... ('install') || ... ('configure')`
(line 105). -/
def setupQueryTrigger (queryLower : Str) : Bool :=
  jsIncludes queryLower (strL "setup") || jsIncludes queryLower (strL "install")
  || jsIncludes queryLower (strL "configure")

/-- The chunk signal of the setup boost (line 106). -/
def setupChunkSignal (chunk : SearchHit) : Bool :=
  chunk.fileName = strL "package.json" || chunk.fileName = strL "README.md"
  || chunk.chunkType = strL "documentation"

/-- `queryLower.includes('api') || ... ('endpoint') || ... ('route')` (line 111). -/
def apiQueryTrigger (queryLower : Str) : Bool :=
  jsIncludes queryLower (strL "api") || jsIncludes queryLower (strL "endpoint")
  || jsIncludes queryLower (strL "route")

/-- The chunk signal of the api boost (line 112). -/
def apiChunkSignal (chunk : SearchHit) : Bool :=
  jsIncludes chunk.filePath (strL "routes") || chunk.chunkType = strL "route"

/-- `queryLower.includes('database') || ... ('model') || ... ('schema')` (line 117). -/
def dbQueryTrigger (queryLower : Str) : Bool :=
  jsIncludes queryLower (strL "database") || jsIncludes queryLower (strL "model")
  || jsIncludes queryLower (strL "schema")

/-- The chunk signal of the database boost (line 118). -/
def dbChunkSignal (chunk : SearchHit) : Bool :=
  jsIncludes chunk.filePath (strL "models") || chunk.chunkType = strL "class"

/-- `queryLower.includes('auth') || ... ('login') || ... ('user')` (line 123). -/
def authQueryTrigger (queryLower : Str) : Bool :=
  jsIncludes queryLower (strL "auth") || jsIncludes queryLower (strL "login")
  || jsIncludes queryLower (strL "user")

/-- The chunk signal of the auth boost (line 124). -/
def authChunkSignal (chunk : SearchHit) : Bool :=
  jsIncludes chunk.filePath (strL "auth")
  || jsIncludes (jsToLower chunk.content) (strL "auth")

/-- An intent boost fires when both its query keywords and its chunk signal
are present. -/
def setupBoost (queryLower : Str) (chunk : SearchHit) : Bool :=
  setupQueryTrigger queryLower && setupChunkSignal chunk

/-- The api/endpoint/route boost condition. -/
def apiBoost (queryLower : Str) (chunk : SearchHit) : Bool :=
  apiQueryTrigger queryLower && apiChunkSignal chunk

/-- The database/model/schema boost condition. -/
def dbBoost (queryLower : Str) (chunk : SearchHit) : Bool :=
  dbQueryTrigger queryLower && dbChunkSignal chunk

/-- The auth/login/user boost condition. -/
def authBoost (queryLower : Str) (chunk : SearchHit) : Bool :=
  authQueryTrigger queryLower && authChunkSignal chunk

/-- Number of intent boosts the (query, chunk) pair triggers. -/
def numBoosts (queryLower : Str) (chunk : SearchHit) : Nat :=
  (if setupBoost queryLower chunk then 1 else 0)
  + (if apiBoost queryLower chunk then 1 else 0)
  + (if dbBoost queryLower chunk then 1 else 0)
  + (if authBoost queryLower chunk then 1 else 0)

/-- The four intent-boost steps of `filterAndRankResults` (lines 102–127 of
`rag-service.js`): starting from `chunk.score`, multiply by 1.5 for every
triggered (query-keyword, chunk-signal) pair, in source order. -/
def adjustScore (queryLower : Str) (chunk : SearchHit) : ℚ :=
  let s0 := chunk.score
  let s1 := if setupBoost queryLower chunk then s0 * ((3 : ℚ)/2) else s0
  let s2 := if apiBoost queryLower chunk then s1 * ((3 : ℚ)/2) else s1
  let s3 := if dbBoost queryLower chunk then s2 * ((3 : ℚ)/2) else s2
  let s4 := if authBoost queryLower chunk then s3 * ((3 : ℚ)/2) else s3
  s4

/-- The `.map` step of `filterAndRankResults`: attach the adjusted score. -/
def boostChunk (queryLower : Str) (chunk : SearchHit) : RankedHit :=
  { chunk with adjustedScore := adjustScore queryLower chunk }

/-- Descending comparison used by `.sort((a, b) => b.adjustedScore - a.adjustedScore)`
(V8's sort is stable, as is `List.mergeSort`; stable sorts under the same total
preorder coincide). -/
def rankLe (a b : RankedHit) : Bool := decide (b.adjustedScore ≤ a.adjustedScore)

/-- `RAGService.filterAndRankResults` (lines 97–136): boost, sort descending by
adjusted score, then drop everything at or below the 0.3 relevance floor. -/
def filterAndRankResults (searchResults : List SearchHit) (query : Str) : List RankedHit :=
  let queryLower := jsToLower query
  (((searchResults.map (boostChunk queryLower)).mergeSort rankLe).filter
    (fun chunk => decide ((3 : ℚ)/10 < chunk.adjustedScore)))

/-- `RAGService.searchRelevantContext` (lines 69–92): hybrid search for the top
15 candidates, re-rank, and keep the first 8.  The external OpenSearch call is
abstracted as a function from the requested size to the returned hits. -/
def searchRelevantContext (hybridSearch : Nat → List SearchHit) (query : Str) : List RankedHit :=
  let searchResults := hybridSearch 15
  let relevantChunks := filterAndRankResults searchResults query
  relevantChunks.take 8

/-- The content rendering inside `buildContext`:
`chunk.content.substring(0, 1000)` plus a `'...'` marker when longer. -/
def renderedContent (content : Str) : Str :=
  content.take 1000 ++ (if 1000 < content.length then strL "..." else [])

/-- One `### k. file (type)` block of `buildContext` (lines 148–158),
`index` being the 0-based position of the chunk in the ranked list. -/
def chunkBlock (index : Nat) (chunk : RankedHit) : Str :=
  strL "### " ++ natStr (index + 1) ++ strL ". " ++ chunk.fileName
    ++ strL " (" ++ chunk.chunkType ++ strL ")\n"
  ++ strL "**File Path:** " ++ chunk.filePath ++ strL "\n"
  ++ (match chunk.functionName with
      | some f => strL "**Function:** " ++ f ++ strL "\n"
      | none => [])
  ++ (match chunk.className with
      | some c => strL "**Class:** " ++ c ++ strL "\n"
      | none => [])
  ++ strL "**Content:**\n```\n" ++ renderedContent chunk.content ++ strL "\n```\n\n"

/-- The `forEach` accumulation of `buildContext`. -/
def contextBlocks : Nat → List RankedHit → Str
  | _, [] => []
  | index, chunk :: rest => chunkBlock index chunk ++ contextBlocks (index + 1) rest

/-- `RAGService.buildContext` (lines 141–161). -/
def buildContext (relevantChunks : List RankedHit) : Str :=
  if relevantChunks.length = 0 then
    strL "No specific codebase context found for this query."
  else
    strL "## Relevant Codebase Information:\n\n" ++ contextBlocks 0 relevantChunks

/-! ## The chunk extractor (`codebase-processor.js`) -/

/-- The `type` field of an extracted chunk.  `cls` stands for the source's
`'class'` (a Lean keyword). -/
inductive ChunkType
  | file_overview
  | function
  | cls
  | route
  | documentation
  | configuration
deriving DecidableEq, Repr

/-- An extracted chunk, the union of the object shapes built by
`processFile`, `extractCodeChunks`, `extractDocumentationChunks` and
`extractConfigChunks` (absent JS fields are `none`). -/
structure Chunk where
  type : ChunkType
  content : Str
  filePath : Str
  fileName : Str
  fileType : Str
  repository : Str
  startLine : Nat
  endLine : Nat
  functionName : Option Str := none
  className : Option Str := none
  description : Option Str := none
deriving DecidableEq, Repr

/-- Node's `path.basename` for POSIX paths. -/
def basename (p : Str) : Str := (p.reverse.takeWhile (· ≠ '/')).reverse

/-- Node's `path.extname`: the suffix of the basename from its last dot; empty
when the basename has no dot or starts with its only dot. -/
def extname (p : Str) : Str :=
  let b := basename p
  let tail := b.reverse.takeWhile (· ≠ '.')
  if tail.length = b.length then []
  else if tail.length + 1 = b.length then []
  else b.drop (b.length - (tail.length + 1))

/-- `CodebaseProcessor.getFileType` (lines 372–394). -/
def getFileType (extension : Str) : Str :=
  if extension = strL ".js" then strL "javascript"
  else if extension = strL ".ts" then strL "typescript"
  else if extension = strL ".jsx" then strL "react"
  else if extension = strL ".tsx" then strL "react-typescript"
  else if extension = strL ".py" then strL "python"
  else if extension = strL ".java" then strL "java"
  else if extension = strL ".cpp" then strL "cpp"
  else if extension = strL ".c" then strL "c"
  else if extension = strL ".h" then strL "c-header"
  else if extension = strL ".cs" then strL "csharp"
  else if extension = strL ".php" then strL "php"
  else if extension = strL ".rb" then strL "ruby"
  else if extension = strL ".go" then strL "go"
  else if extension = strL ".rs" then strL "rust"
  else if extension = strL ".md" then strL "markdown"
  else if extension = strL ".json" then strL "json"
  else if extension = strL ".yaml" then strL "yaml"
  else if extension = strL ".yml" then strL "yaml"
  else strL "unknown"

/-- `CodebaseProcessor.isCodeFile` (lines 367–370). -/
def isCodeFile (extension : Str) : Bool :=
  [strL ".js", strL ".ts", strL ".jsx", strL ".tsx", strL ".py", strL ".java",
   strL ".cpp", strL ".c", strL ".h", strL ".cs", strL ".php", strL ".rb",
   strL ".go", strL ".rs"].contains extension

/-! ### Hand-compiled regular expressions

Prefix matchers over `Str`; `Option Str` carries the unconsumed remainder.
Each definition notes the regex fragment it implements. -/

/-- JS `\w` = `[A-Za-z0-9_]`. -/
def isWordChar (c : Char) : Bool := c.isAlpha || c.isDigit || c = '_'

/-- A literal regex fragment. -/
def litP (lit : Str) (s : Str) : Option Str :=
  if lit.isPrefixOf s then some (s.drop lit.length) else none

/-- `\s+`. -/
def ws1 : Str → Option Str
  | [] => none
  | c :: rest => if jsWhitespace c then some (rest.dropWhile jsWhitespace) else none

/-- `\s*`. -/
def ws0 (s : Str) : Str := s.dropWhile jsWhitespace

/-- `\w+`. -/
def word1 : Str → Option Str
  | [] => none
  | c :: rest => if isWordChar c then some (rest.dropWhile isWordChar) else none

/-- A single literal character. -/
def chP (c : Char) : Str → Option Str
  | [] => none
  | c' :: rest => if c' = c then some rest else none

/-- `[^)]*`. -/
def notClose0 (s : Str) : Str := s.dropWhile (· ≠ ')')

/-- `\w+` with its match captured (`(\w+)`); returns capture and remainder. -/
def capWordR (s : Str) : Option (Str × Str) :=
  let w := s.takeWhile isWordChar
  if w.isEmpty then none else some (w, s.drop w.length)

/-- `function\s+\w+` (first alternative of the first function pattern). -/
def fnKwP (t : Str) : Bool :=
  (do
    let r ← litP (strL "function") t
    let r ← ws1 r
    let _ ← word1 r
    pure ()).isSome

/-- `const\s+\w+\s*=\s*\([^)]*\)\s*=>`. -/
def constArrowP (t : Str) : Bool :=
  (do
    let r ← litP (strL "const") t
    let r ← ws1 r
    let r ← word1 r
    let r ← chP '=' (ws0 r)
    let r ← chP '(' (ws0 r)
    let r ← chP ')' (notClose0 r)
    let _ ← litP (strL "=>") (ws0 r)
    pure ()).isSome

/-- `def\s+\w+`. -/
def defKwP (t : Str) : Bool :=
  (do
    let r ← litP (strL "def") t
    let r ← ws1 r
    let _ ← word1 r
    pure ()).isSome

/-- `public\s+\w+\s+\w+\s*\(`. -/
def publicP (t : Str) : Bool :=
  (do
    let r ← litP (strL "public") t
    let r ← ws1 r
    let r ← word1 r
    let r ← ws1 r
    let r ← word1 r
    let _ ← chP '(' (ws0 r)
    pure ()).isSome

/-- `async\s+function\s+\w+`. -/
def asyncFnP (t : Str) : Bool :=
  (do
    let r ← litP (strL "async") t
    let r ← ws1 r
    let r ← litP (strL "function") r
    let r ← ws1 r
    let _ ← word1 r
    pure ()).isSome

/-- `export\s+(async\s+)?function\s+\w+`. -/
def exportFnP (t : Str) : Bool :=
  (do
    let r ← litP (strL "export") t
    let r ← ws1 r
    let tryAsync :=
      (do
        let r2 ← litP (strL "async") r
        let r2 ← ws1 r2
        pure r2 : Option Str)
    let r := tryAsync.getD r
    let r ← litP (strL "function") r
    let r ← ws1 r
    let _ ← word1 r
    pure ()).isSome

/-- `\w+\s*:\s*function`. -/
def memberFnP (t : Str) : Bool :=
  (do
    let r ← word1 t
    let r ← chP ':' (ws0 r)
    let _ ← litP (strL "function") (ws0 r)
    pure ()).isSome

/-- `\w+\s*:\s*\([^)]*\)\s*=>`. -/
def memberArrowP (t : Str) : Bool :=
  (do
    let r ← word1 t
    let r ← chP ':' (ws0 r)
    let r ← chP '(' (ws0 r)
    let r ← chP ')' (notClose0 r)
    let _ ← litP (strL "=>") (ws0 r)
    pure ()).isSome

/-- The `function` pattern family (lines 205–209 of `codebase-processor.js`);
each regex is anchored `^\s*(...)`, hence the single leading `ws0`. -/
def functionTest (line : Str) : Bool :=
  let t := ws0 line
  fnKwP t || constArrowP t || defKwP t || publicP t
  || asyncFnP t || exportFnP t
  || memberFnP t || memberArrowP t

/-- `class\s+\w+`, `interface\s+\w+`, `type\s+\w+` and
`export\s+(default\s+)?class\s+\w+` — the `class` family (lines 210–213). -/
def kwNameP (kw : String) (t : Str) : Bool :=
  (do
    let r ← litP (strL kw) t
    let r ← ws1 r
    let _ ← word1 r
    pure ()).isSome

/-- `export\s+(default\s+)?class\s+\w+`. -/
def exportClassP (t : Str) : Bool :=
  (do
    let r ← litP (strL "export") t
    let r ← ws1 r
    let tryDefault :=
      (do
        let r2 ← litP (strL "default") r
        let r2 ← ws1 r2
        pure r2 : Option Str)
    let r := tryDefault.getD r
    let r ← litP (strL "class") r
    let r ← ws1 r
    let _ ← word1 r
    pure ()).isSome

/-- The `class` pattern family. -/
def classTest (line : Str) : Bool :=
  let t := ws0 line
  kwNameP "class" t || kwNameP "interface" t || kwNameP "type" t || exportClassP t

/-- `(get|post|put|delete|patch)` after `app.` / `router.`. -/
def httpVerbP (t : Str) : Bool :=
  (litP (strL "get") t).isSome || (litP (strL "post") t).isSome
  || (litP (strL "put") t).isSome || (litP (strL "delete") t).isSome
  || (litP (strL "patch") t).isSome

/-- `@(Get|Post|Put|Delete|Patch)\s*\(`. -/
def decoratorRouteP (t : Str) : Bool :=
  (do
    let r ← chP '@' t
    let r ← (litP (strL "Get") r).orElse (fun _ => (litP (strL "Post") r).orElse
      (fun _ => (litP (strL "Put") r).orElse (fun _ => (litP (strL "Delete") r).orElse
        (fun _ => litP (strL "Patch") r))))
    let _ ← chP '(' (ws0 r)
    pure ()).isSome

/-- The `route` pattern family (lines 214–217). -/
def routeTest (line : Str) : Bool :=
  let t := ws0 line
  (match litP (strL "app.") t with
   | some r => httpVerbP r
   | none => false)
  || (match litP (strL "router.") t with
      | some r => httpVerbP r
      | none => false)
  || decoratorRouteP t

/-- Leftmost-position search, modelling an unanchored JS `line.match(regex)`. -/
def searchPos {α : Type} (f : Str → Option α) : Str → Option α
  | [] => f []
  | c :: rest =>
    match f (c :: rest) with
    | some x => some x
    | none => searchPos f rest

/-- `/function\s+(\w+)/` at one position. -/
def fnNameAt (s : Str) : Option Str :=
  (do
    let r ← litP (strL "function") s
    let r ← ws1 r
    let (w, _) ← capWordR r
    pure w)

/-- `/const\s+(\w+)\s*=/` at one position. -/
def constNameAt (s : Str) : Option Str :=
  (do
    let r ← litP (strL "const") s
    let r ← ws1 r
    let (w, r) ← capWordR r
    let _ ← chP '=' (ws0 r)
    pure w)

/-- `/def\s+(\w+)/` at one position. -/
def defNameAt (s : Str) : Option Str :=
  (do
    let r ← litP (strL "def") s
    let r ← ws1 r
    let (w, _) ← capWordR r
    pure w)

/-- `/(\w+)\s*:\s*function/` at one position. -/
def memberFnNameAt (s : Str) : Option Str :=
  (do
    let (w, r) ← capWordR s
    let r ← chP ':' (ws0 r)
    let _ ← litP (strL "function") (ws0 r)
    pure w)

/-- `/(\w+)\s*:\s*\([^)]*\)\s*=>/` at one position. -/
def memberArrowNameAt (s : Str) : Option Str :=
  (do
    let (w, r) ← capWordR s
    let r ← chP ':' (ws0 r)
    let r ← chP '(' (ws0 r)
    let r ← chP ')' (notClose0 r)
    let _ ← litP (strL "=>") (ws0 r)
    pure w)

/-- `CodebaseProcessor.extractFunctionName` (lines 396–410): the first of five
name-extraction regexes that matches anywhere on the line. -/
def extractFunctionName (line : Str) : Option Str :=
  (searchPos fnNameAt line).orElse (fun _ =>
  (searchPos constNameAt line).orElse (fun _ =>
  (searchPos defNameAt line).orElse (fun _ =>
  (searchPos memberFnNameAt line).orElse (fun _ =>
  searchPos memberArrowNameAt line))))

/-- `/class\s+(\w+)|interface\s+(\w+)/` at one position (either alternative,
`class` preferred, as in the source's `match[1] || match[2]`). -/
def classNameAt (s : Str) : Option Str :=
  (do
    let r ← litP (strL "class") s
    let r ← ws1 r
    let (w, _) ← capWordR r
    pure w).orElse (fun _ =>
  (do
    let r ← litP (strL "interface") s
    let r ← ws1 r
    let (w, _) ← capWordR r
    pure w))

/-- `CodebaseProcessor.extractClassName` (lines 412–415). -/
def extractClassName (line : Str) : Option Str := searchPos classNameAt line

/-! ### The forward scan of `extractCodeChunks` (lines 199–289) -/

/-- One line's effect on the `inMultilineComment` flag (lines 229–230):
set on `'/*'`, then cleared on `'*/'` — a line containing `'*/'` always
clears it. -/
def commentStep (inComment : Bool) (trimmedLine : Str) : Bool :=
  if jsIncludes trimmedLine (strL "*/") then false
  else if jsIncludes trimmedLine (strL "/*") then true
  else inComment

/-- `{`-minus-`}` count of a line (lines 272–273). -/
def braceDelta (line : Str) : Int :=
  (countChar '\x7b' line : Int) - (countChar '\x7d' line : Int)

/-- A freshly started accumulator (lines 249–260); `i` is the 1-based line
number of the triggering line. -/
def newCodeChunk (ty : ChunkType) (line : Str) (i : Nat)
    (filePath fileName repositoryName : Str) : Chunk :=
  { type := ty
    content := line ++ ['\n']
    filePath := filePath
    fileName := fileName
    fileType := getFileType (extname fileName)
    repository := repositoryName
    startLine := i
    endLine := i
    functionName := extractFunctionName line
    className := if ty = ChunkType.cls then extractClassName line else none }

/-- `if (currentChunk && currentChunk.content.trim()) chunks.push(currentChunk)`. -/
def pushIfNonWs (acc : List Chunk) (c : Chunk) : List Chunk :=
  if jsTrim c.content = [] then acc else acc ++ [c]

/-- One pattern family inside the `for (const [type, typePatterns] ...)` loop
(lines 240–265): on a match, flush the current accumulator, start a fresh one
of this family's type, and reset the brace counter. -/
def familyStep (line : Str) (i : Nat) (fp fn rn : Str) (ty : ChunkType)
    (test : Str → Bool) (st : List Chunk × Option Chunk × Int) :
    List Chunk × Option Chunk × Int :=
  let (acc, cur, brace) := st
  if test line then
    (match cur with
     | some c => pushIfNonWs acc c
     | none => acc,
     some (newCodeChunk ty line i fp fn rn), 0)
  else (acc, cur, brace)

/-- The three families are tried in source (insertion) order — `function`,
`class`, `route` — and, as in the source, a later family can displace the
chunk just created by an earlier one (the inner `break` only leaves the
per-family pattern loop). -/
def matchFamilies (line : Str) (i : Nat) (fp fn rn : Str)
    (st : List Chunk × Option Chunk × Int) : List Chunk × Option Chunk × Int :=
  familyStep line i fp fn rn ChunkType.route routeTest
    (familyStep line i fp fn rn ChunkType.cls classTest
      (familyStep line i fp fn rn ChunkType.function functionTest st))

/-- The body of the `for (let i = 0; ...)` scan of `extractCodeChunks`:
`i` is the 1-based number of the next line, `cur` the active accumulator,
`brace` the open-brace counter, `inComment` the block-comment flag. -/
def extractLoop (fp fn rn : Str) :
    List Str → Nat → Option Chunk → Int → Bool → List Chunk → List Chunk
  | [], _, cur, _, _, acc =>
    (match cur with
     | some c => pushIfNonWs acc c
     | none => acc)
  | line :: rest, i, cur, brace, inComment, acc =>
    let t := jsTrim line
    let inC := commentStep inComment t
    if inC then
      -- inside a block comment: the line is skipped entirely (`continue`
      -- before any append)
      extractLoop fp fn rn rest (i + 1) cur brace inC acc
    else if jsStartsWith t (strL "//") || jsStartsWith t (strL "#") || t.isEmpty then
      -- single-line comment or blank: appended to the accumulator (if any)
      -- without updating `endLine`, skipped for pattern matching
      extractLoop fp fn rn rest (i + 1)
        (cur.map (fun c => { c with content := c.content ++ line ++ ['\n'] }))
        brace inC acc
    else
      let st := matchFamilies line i fp fn rn (acc, cur, brace)
      match st.2.1 with
      | none => extractLoop fp fn rn rest (i + 1) none st.2.2 inC st.1
      | some c =>
        let c2 := { c with content := c.content ++ line ++ ['\n'], endLine := i }
        let brace2 := st.2.2 + braceDelta line
        if brace2 ≤ 0 ∧ 100 < c2.content.length then
          extractLoop fp fn rn rest (i + 1) none brace2 inC (st.1 ++ [c2])
        else
          extractLoop fp fn rn rest (i + 1) (some c2) brace2 inC st.1

/-- `CodebaseProcessor.extractCodeChunks` (lines 199–289). -/
def extractCodeChunks (content filePath fileName repositoryName : Str) : List Chunk :=
  extractLoop filePath fileName repositoryName (splitLines content) 1 none 0 false []

/-! ### Markdown documentation chunks (lines 294–335) -/

/-- The header regex `^(#{1,6})\s+(.+)`, returning the captured title
(`headerMatch[2]`).  `.` excludes `\r`; when the line is hashes and whitespace
only, the engine backtracks `\s+` so that `.+` can consume trailing
whitespace. -/
def headerMatch (line : Str) : Option Str :=
  let hashes := line.takeWhile (· = '#')
  if 1 ≤ hashes.length ∧ hashes.length ≤ 6 then
    let rest := line.drop hashes.length
    let wsPre := rest.takeWhile jsWhitespace
    if wsPre.length = 0 then none
    else
      let r := rest.drop wsPre.length
      if r.isEmpty then
        match ((List.range wsPre.length).filter
            (fun j => 0 < j && wsPre.getD j ' ' ≠ '\r')).getLast? with
        | some j => some ((wsPre.drop j).takeWhile (· ≠ '\r'))
        | none => none
      else some (r.takeWhile (· ≠ '\r'))
  else none

/-- The scan of `extractDocumentationChunks`: start a section at each header
line; every later line is appended to the open section and advances its
`endLine`. -/
def docLoop (fp fn rn : Str) :
    List Str → Nat → Option Chunk → List Chunk → List Chunk
  | [], _, cur, acc =>
    (match cur with
     | some c => pushIfNonWs acc c
     | none => acc)
  | line :: rest, i, cur, acc =>
    match headerMatch line with
    | some title =>
      let acc' := match cur with
        | some c => pushIfNonWs acc c
        | none => acc
      docLoop fp fn rn rest (i + 1)
        (some { type := ChunkType.documentation
                content := line ++ ['\n']
                filePath := fp
                fileName := fn
                fileType := strL "markdown"
                repository := rn
                startLine := i
                endLine := i
                description := some title }) acc'
    | none =>
      match cur with
      | some c =>
        docLoop fp fn rn rest (i + 1)
          (some { c with content := c.content ++ line ++ ['\n'], endLine := i }) acc
      | none => docLoop fp fn rn rest (i + 1) none acc

/-- `CodebaseProcessor.extractDocumentationChunks` (lines 294–335). -/
def extractDocumentationChunks (content filePath fileName repositoryName : Str) :
    List Chunk :=
  docLoop filePath fileName repositoryName (splitLines content) 1 none []

/-! ### JSON configuration chunks (lines 340–362)

`JSON.parse` / `JSON.stringify(config, null, 2)` are JS builtins; they are
modelled by an executable parser and pretty-printer over `JValue`.  Number
literals are kept verbatim (JS would re-render them from the parsed double,
normalising e.g. `1.0` to `1`), and object keys keep insertion order (JS would
move integer-like keys to the front); the model and the builtins agree on all
other inputs. -/

/-- A parsed JSON value. -/
inductive JValue
  | null
  | bool (b : Bool)
  | num (literal : Str)
  | str (s : Str)
  | arr (elems : List JValue)
  | obj (fields : List (Str × JValue))

/-- JSON insignificant whitespace. -/
def jsonWs (c : Char) : Bool := c = ' ' || c = '\t' || c = '\n' || c = '\r'

/-- Skip insignificant whitespace. -/
def skipWs (s : Str) : Str := s.dropWhile jsonWs

/-- ASCII decimal digit. -/
def isDigitCh (c : Char) : Bool := '0' ≤ c ∧ c ≤ '9'

/-- Hex digit value. -/
def hexVal (c : Char) : Option Nat :=
  if '0' ≤ c ∧ c ≤ '9' then some (c.toNat - '0'.toNat)
  else if 'a' ≤ c ∧ c ≤ 'f' then some (c.toNat - 'a'.toNat + 10)
  else if 'A' ≤ c ∧ c ≤ 'F' then some (c.toNat - 'A'.toNat + 10)
  else none

/-- The digits of a JSON `int` part: `0` alone or a nonzero digit followed by
digits. -/
def parseIntDigits : Str → Option (Str × Str)
  | [] => none
  | c :: rest =>
    if c = '0' then some ([c], rest)
    else if isDigitCh c then
      some (c :: rest.takeWhile isDigitCh, rest.dropWhile isDigitCh)
    else none

/-- A JSON number literal (kept verbatim): `-?int(\.digits+)?([eE][+-]?digits+)?`. -/
def parseNumber (s : Str) : Option (Str × Str) := do
  let (neg, s1) := match s with
    | '-' :: rest => (['-'], rest)
    | _ => (([] : Str), s)
  let (intPart, s2) ← parseIntDigits s1
  let (fracPart, s3) := match s2 with
    | '.' :: rest =>
      let ds := rest.takeWhile isDigitCh
      if ds.isEmpty then (([] : Str), s2) else ('.' :: ds, rest.dropWhile isDigitCh)
    | _ => (([] : Str), s2)
  -- a lone '.' with no digits is a JSON syntax error
  if s2 ≠ s3 ∨ ¬(s2.headD ' ' = '.') then
    let (expPart, s4) := match s3 with
      | e :: rest =>
        if e = 'e' ∨ e = 'E' then
          let (sign, rest2) := match rest with
            | '+' :: r => (['+'], r)
            | '-' :: r => (['-'], r)
            | _ => (([] : Str), rest)
          let ds := rest2.takeWhile isDigitCh
          if ds.isEmpty then (([] : Str), s3)
          else (e :: (sign ++ ds), rest2.dropWhile isDigitCh)
        else (([] : Str), s3)
      | _ => (([] : Str), s3)
    -- a dangling 'e' with no digits is likewise an error (it was not consumed)
    if (s3.headD ' ' = 'e' ∨ s3.headD ' ' = 'E') ∧ expPart.isEmpty then none
    else if (s2.headD ' ' = '.') ∧ fracPart.isEmpty then none
    else some (neg ++ intPart ++ fracPart ++ expPart, s4)
  else none

/-- The body of a JSON string after the opening quote; decodes escapes. -/
def parseStringBody : Nat → Str → Option (Str × Str)
  | 0, _ => none
  | _ + 1, [] => none
  | fuel + 1, c :: rest =>
    if c = '"' then some ([], rest)
    else if c = '\\' then
      match rest with
      | [] => none
      | e :: rest2 =>
        let decoded : Option (Char × Str) :=
          if e = '"' then some ('"', rest2)
          else if e = '\\' then some ('\\', rest2)
          else if e = '/' then some ('/', rest2)
          else if e = 'b' then some ('\x08', rest2)
          else if e = 'f' then some ('\x0c', rest2)
          else if e = 'n' then some ('\n', rest2)
          else if e = 'r' then some ('\r', rest2)
          else if e = 't' then some ('\t', rest2)
          else if e = 'u' then
            match rest2 with
            | h1 :: h2 :: h3 :: h4 :: rest3 => do
              let v1 ← hexVal h1
              let v2 ← hexVal h2
              let v3 ← hexVal h3
              let v4 ← hexVal h4
              pure (Char.ofNat (((v1 * 16 + v2) * 16 + v3) * 16 + v4), rest3)
            | _ => none
          else none
        match decoded with
        | some (ch, rest') => do
          let (tail, rem) ← parseStringBody fuel rest'
          pure (ch :: tail, rem)
        | none => none
    else if c.toNat < 32 then none
    else do
      let (tail, rem) ← parseStringBody fuel rest
      pure (c :: tail, rem)

/-- JS object field update: a duplicate key keeps its first position but takes
the last value. -/
def objInsert (fields : List (Str × JValue)) (k : Str) (v : JValue) :
    List (Str × JValue) :=
  if fields.any (fun f => f.1 = k) then
    fields.map (fun f => if f.1 = k then (f.1, v) else f)
  else fields ++ [(k, v)]

mutual

/-- A JSON value (fuel-indexed recursive descent). -/
def parseJ : Nat → Str → Option (JValue × Str)
  | 0, _ => none
  | fuel + 1, s =>
    match skipWs s with
    | [] => none
    | c :: rest =>
      if c = 'n' then (litP (strL "ull") rest).map (fun r => (JValue.null, r))
      else if c = 't' then (litP (strL "rue") rest).map (fun r => (JValue.bool true, r))
      else if c = 'f' then (litP (strL "alse") rest).map (fun r => (JValue.bool false, r))
      else if c = '"' then (parseStringBody (rest.length + 1) rest).map
        (fun p => (JValue.str p.1, p.2))
      else if c = '[' then
        match skipWs rest with
        | ']' :: rest2 => some (JValue.arr [], rest2)
        | _ => (parseArrElems fuel rest).map (fun p => (JValue.arr p.1, p.2))
      else if c = '\x7b' then
        match skipWs rest with
        | '\x7d' :: rest2 => some (JValue.obj [], rest2)
        | _ => (parseObjMembers fuel rest []).map (fun p => (JValue.obj p.1, p.2))
      else (parseNumber (c :: rest)).map (fun p => (JValue.num p.1, p.2))

/-- `value (',' value)* ']'`. -/
def parseArrElems : Nat → Str → Option (List JValue × Str)
  | 0, _ => none
  | fuel + 1, s => do
    let (v, r) ← parseJ fuel s
    match skipWs r with
    | ',' :: r2 => do
      let (vs, r3) ← parseArrElems fuel r2
      pure (v :: vs, r3)
    | ']' :: r2 => pure ([v], r2)
    | _ => none

/-- `string ':' value (',' string ':' value)* '}'`. -/
def parseObjMembers : Nat → Str → List (Str × JValue) → Option (List (Str × JValue) × Str)
  | 0, _, _ => none
  | fuel + 1, s, fields =>
    match skipWs s with
    | '"' :: rest => do
      let (k, r) ← parseStringBody (rest.length + 1) rest
      match skipWs r with
      | ':' :: r2 => do
        let (v, r3) ← parseJ fuel r2
        let fields' := objInsert fields k v
        match skipWs r3 with
        | ',' :: r4 => parseObjMembers fuel r4 fields'
        | '\x7d' :: r4 => pure (fields', r4)
        | _ => none
      | _ => none
    | _ => none

end

/-- `JSON.parse(content)` as an `Option`: `none` models a thrown `SyntaxError`. -/
def jsonParse (content : Str) : Option JValue :=
  match parseJ (2 * content.length + 2) content with
  | some (v, rest) => if skipWs rest = [] then some v else none
  | none => none

/-- Escape one character as `JSON.stringify` does. -/
def jsonEscapeChar (c : Char) : Str :=
  if c = '"' then strL "\\\""
  else if c = '\\' then strL "\\\\"
  else if c = '\x08' then strL "\\b"
  else if c = '\x0c' then strL "\\f"
  else if c = '\n' then strL "\\n"
  else if c = '\r' then strL "\\r"
  else if c = '\t' then strL "\\t"
  else if c.toNat < 32 then
    strL "\\u00" ++ [(strL "0123456789abcdef").getD (c.toNat / 16) '0',
                     (strL "0123456789abcdef").getD (c.toNat % 16) '0']
  else [c]

/-- A JSON string literal as `JSON.stringify` prints it. -/
def jsonQuote (s : Str) : Str := '"' :: (s.flatMap jsonEscapeChar) ++ ['"']

mutual

/-- `JSON.stringify(v, null, 2)` at nesting depth `ind` (in spaces). -/
def jsonStringify : Nat → JValue → Str
  | _, JValue.null => strL "null"
  | _, JValue.bool true => strL "true"
  | _, JValue.bool false => strL "false"
  | _, JValue.num lit => lit
  | _, JValue.str s => jsonQuote s
  | _, JValue.arr [] => strL "[]"
  | ind, JValue.arr (v :: vs) =>
    strL "[\n" ++ jsonItems (ind + 2) (v :: vs)
      ++ ['\n'] ++ List.replicate ind ' ' ++ [']']
  | _, JValue.obj [] => strL "\x7b\x7d"
  | ind, JValue.obj (f :: fs) =>
    strL "\x7b\n" ++ jsonFields (ind + 2) (f :: fs)
      ++ ['\n'] ++ List.replicate ind ' ' ++ ['\x7d']

/-- Comma-and-newline separated, indented array items. -/
def jsonItems : Nat → List JValue → Str
  | _, [] => []
  | ind, [v] => List.replicate ind ' ' ++ jsonStringify ind v
  | ind, v :: v' :: vs =>
    List.replicate ind ' ' ++ jsonStringify ind v ++ strL ",\n"
      ++ jsonItems ind (v' :: vs)

/-- Comma-and-newline separated, indented `"key": value` fields. -/
def jsonFields : Nat → List (Str × JValue) → Str
  | _, [] => []
  | ind, [f] => List.replicate ind ' ' ++ jsonQuote f.1 ++ strL ": " ++ jsonStringify ind f.2
  | ind, f :: f' :: fs =>
    List.replicate ind ' ' ++ jsonQuote f.1 ++ strL ": " ++ jsonStringify ind f.2
      ++ strL ",\n" ++ jsonFields ind (f' :: fs)

end

/-- `CodebaseProcessor.extractConfigChunks` (lines 340–362): parse the file as
JSON; on success emit one pretty-printed `configuration` chunk, on a parse
error return the empty list (`catch { return [] }` — no error escapes). -/
def extractConfigChunks (content filePath fileName repositoryName : Str) : List Chunk :=
  match jsonParse content with
  | some config =>
    [{ type := ChunkType.configuration
       content := jsonStringify 0 config
       filePath := filePath
       fileName := fileName
       fileType := strL "json"
       repository := repositoryName
       startLine := 1
       endLine := (splitLines content).length
       description := some (strL "Configuration file: " ++ fileName) }]
  | none => []

/-! ### File overview and `processFile` (lines 122–194) -/

/-- The trimmed-line test of the imports filter:
`^(import|require|from|#include|using)`. -/
def isImportLine (t : Str) : Bool :=
  jsStartsWith t (strL "import") || jsStartsWith t (strL "require")
  || jsStartsWith t (strL "from") || jsStartsWith t (strL "#include")
  || jsStartsWith t (strL "using")

/-- The first 10 lines of the whole file matching the imports regex
(lines 171–173). -/
def importsOf (lines : List Str) : List Str :=
  (lines.filter (fun l => isImportLine (jsTrim l))).take 10

/-- The `break` test of the top-comment scan:
a non-empty line not matching `^(import|require|from|package)`. -/
def commentScanBreak (t : Str) : Bool :=
  ¬t.isEmpty && ¬(jsStartsWith t (strL "import") || jsStartsWith t (strL "require")
    || jsStartsWith t (strL "from") || jsStartsWith t (strL "package"))

/-- A line counted as a leading comment (trimmed). -/
def isTopCommentLine (t : Str) : Bool :=
  jsStartsWith t (strL "//") || jsStartsWith t (strL "/*")
  || jsStartsWith t (strL "#") || jsStartsWith t (strL "\"\"\"")

/-- The top-comment scan body over (at most) the first 20 lines. -/
def topCommentsGo : List Str → List Str
  | [] => []
  | l :: rest =>
    let t := jsTrim l
    if isTopCommentLine t then t :: topCommentsGo rest
    else if commentScanBreak t then []
    else topCommentsGo rest

/-- The `topComments` accumulator of `createFileOverview` (lines 176–184):
scan the first `min(20, lines.length)` lines, collecting trimmed comment
lines, stopping at the first non-comment, non-import, non-blank line. -/
def topComments (lines : List Str) : List Str := topCommentsGo (lines.take 20)

/-- `CodebaseProcessor.createFileOverview` (lines 166–194). -/
def createFileOverview (content filePath : Str) : Str :=
  let lines := splitLines content
  let totalLines := lines.length
  let imports := importsOf lines
  let tcs := topComments lines
  strL "File: " ++ filePath
  ++ strL "\nTotal Lines: " ++ natStr totalLines ++ strL "\n\n"
  ++ (if 0 < tcs.length then strL "Comments:\n" ++ joinNl tcs ++ ['\n'] else [])
  ++ ['\n']
  ++ (if 0 < imports.length then strL "Imports/Dependencies:\n" ++ joinNl imports ++ ['\n'] else [])
  ++ strL "\n\nPreview:\n" ++ joinNl (lines.take 30)

/-- The `file_overview` chunk pushed by `processFile` (lines 132–142). -/
def fileOverviewChunk (content relativePath repositoryName : Str) : Chunk :=
  { type := ChunkType.file_overview
    content := createFileOverview content relativePath
    filePath := relativePath
    fileName := basename relativePath
    fileType := getFileType (jsToLower (extname relativePath))
    repository := repositoryName
    startLine := 1
    endLine := (splitLines content).length
    description := some (strL "Overview of " ++ basename relativePath) }

/-- `CodebaseProcessor.processFile` (lines 122–161), given the file's content
(the `fs.readFile` success case) and its repository-relative path. -/
def processFile (content relativePath repositoryName : Str) : List Chunk :=
  let fileName := basename relativePath
  let fileExtension := jsToLower (extname relativePath)
  fileOverviewChunk content relativePath repositoryName ::
    (if isCodeFile fileExtension then
      extractCodeChunks content relativePath fileName repositoryName
     else if fileExtension = strL ".md" then
      extractDocumentationChunks content relativePath fileName repositoryName
     else if fileExtension = strL ".json" then
      extractConfigChunks content relativePath fileName repositoryName
     else [])

/-! ## Ingestion orchestration (`repository-api.js`, lines 65–137) -/

/-- The final job-status record written by `updateIngestionStatus`. -/
structure IngestionRecord where
  status : Str
  message : Str
deriving DecidableEq, Repr

/-- The batched embedding-and-indexing loop (lines 96–112): batches of 10, a
per-item `try/catch` so that only successful embed+index pairs increment
`processedCount`.  `itemOk` abstracts whether the two external calls succeed
for a chunk.  The fuel is the list length (each round consumes a batch). -/
def ingestCountGo (itemOk : Chunk → Bool) : Nat → List Chunk → Nat → Nat
  | _, [], acc => acc
  | 0, _, acc => acc
  | fuel + 1, l, acc =>
    ingestCountGo itemOk fuel (l.drop 10) (acc + ((l.take 10).filter itemOk).length)

/-- `processedCount` after the whole loop. -/
def ingestProcessedCount (itemOk : Chunk → Bool) (chunks : List Chunk) : Nat :=
  ingestCountGo itemOk chunks.length chunks 0

/-- `processRepositoryAsync` (lines 65–137), with the phases before the batch
loop (clone / `processRepository`) abstracted as an `Except` that either
yields the chunk list or throws: the outer `catch` writes `failed`, otherwise
the job ends `completed` with the success count. -/
def processRepositoryAsync (fetchChunks : Except Str (List Chunk))
    (itemOk : Chunk → Bool) : IngestionRecord :=
  match fetchChunks with
  | Except.error e => { status := strL "failed", message := e }
  | Except.ok chunks =>
    let processedCount := ingestProcessedCount itemOk chunks
    { status := strL "completed"
      message := strL "Successfully processed " ++ natStr processedCount ++ strL " chunks" }

/-! ## Specification-side definitions

These render what the spec's sentences claim, for comparison against the code
definitions above. -/

/-- Specification-side: the block-comment flag after scanning a run of lines,
starting from `f`. -/
def flagAfter (seg : List Str) (f : Bool) : Bool :=
  seg.foldl (fun fl l => commentStep fl (jsTrim l)) f

/-- Specification-side rendering of a scanned segment, as the amended claim C2
states it: thread the block-comment flag through the segment; a line scanned
while the flag is set after its own delimiters are processed (i.e. a comment
interior line, or a line opening an unclosed `/*`) contributes nothing, and
every other line contributes itself plus a newline, exactly once. -/
def renderScanSeg : List Str → Bool → Str
  | [], _ => []
  | l :: rest, f =>
    let f' := commentStep f (jsTrim l)
    if f' then renderScanSeg rest f'
    else l ++ ['\n'] ++ renderScanSeg rest f'

/-- Each line followed by a newline, concatenated — the claim C2 reading of
"the file's lines from `startLine` through `endLine`, each appended exactly
once". -/
def joinLinesNl (ls : List Str) : Str := ls.flatMap (fun l => l ++ ['\n'])

/-- What claim C2 predicts a code chunk's content to be: exactly the file's
lines from `startLine` through `endLine`, each once. -/
def claimedCodeChunkContent (content : Str) (startLine endLine : Nat) : Str :=
  joinLinesNl (((splitLines content).drop (startLine - 1)).take (endLine + 1 - startLine))

/-- The line-range invariant claim C1 states for every chunk of a file with
`totalLines` lines. -/
def chunkBounds (totalLines : Nat) (c : Chunk) : Prop :=
  1 ≤ c.startLine ∧ c.startLine ≤ c.endLine ∧ c.endLine ≤ totalLines

/-- A chunk produced by the code scan carries one of the three structural
types. -/
def codeChunkType (c : Chunk) : Prop :=
  c.type = ChunkType.function ∨ c.type = ChunkType.cls ∨ c.type = ChunkType.route

/-- The amended-C2 content equation: the chunk's content is its triggering
line, a newline, then the rendering of the `k`-line scanned segment that
starts at the triggering line. -/
def codeContentEq (lines : List Str) (c : Chunk) (k : Nat) : Prop :=
  c.content = lines.getD (c.startLine - 1) [] ++ ['
']
    ++ renderScanSeg ((lines.drop (c.startLine - 1)).take k) false

/-- What holds of every chunk already flushed by the code scan. -/
def codeAccProp (lines : List Str) (c : Chunk) : Prop :=
  codeChunkType c ∧ chunkBounds lines.length c ∧
  ∃ k, c.startLine - 1 + k ≤ lines.length ∧ codeContentEq lines c k

/-- What holds of the active accumulator when the scan is about to process
line `i` (1-based) with block-comment flag `inC`. -/
def codeCurProp (lines : List Str) (i : Nat) (inC : Bool) (c : Chunk) : Prop :=
  codeChunkType c ∧ 1 ≤ c.startLine ∧ c.startLine ≤ c.endLine ∧ c.endLine < i ∧
  ∃ k, c.startLine - 1 + k = i - 1 ∧ codeContentEq lines c k ∧
    flagAfter ((lines.drop (c.startLine - 1)).take k) false = inC

/-- What claim C10 asserts of every emitted documentation chunk: it starts at
a header line whose title is its description, and its content is exactly the
lines from `startLine` through `endLine`. -/
def docChunkProp (lines : List Str) (c : Chunk) : Prop :=
  c.type = ChunkType.documentation ∧
  1 ≤ c.startLine ∧ c.startLine ≤ c.endLine ∧ c.endLine ≤ lines.length ∧
  (∃ title, headerMatch (lines.getD (c.startLine - 1) []) = some title ∧
    c.description = some title) ∧
  c.content = joinLinesNl ((lines.drop (c.startLine - 1)).take (c.endLine + 1 - c.startLine))

/-- The open documentation section when the scan is about to process line `i`. -/
def docCurProp (lines : List Str) (i : Nat) (c : Chunk) : Prop :=
  c.type = ChunkType.documentation ∧
  1 ≤ c.startLine ∧ c.startLine ≤ c.endLine ∧ c.endLine = i - 1 ∧
  (∃ title, headerMatch (lines.getD (c.startLine - 1) []) = some title ∧
    c.description = some title) ∧
  c.content = joinLinesNl ((lines.drop (c.startLine - 1)).take (i - c.startLine))

/-- A concrete `package.json` search hit with raw score 1/5, used to exercise
the exact-0.3 relevance-floor boundary. -/
def pkgJsonFloorHit : SearchHit :=
  { score := 1/5, content := [], filePath := [],
    fileName := strL "package.json", chunkType := strL "configuration" }

/-- Ten fixture chunks for the batch-ingestion scenario. -/
def ingestFixtureChunks : List Chunk :=
  (List.range 10).map (fun i =>
    { type := ChunkType.function, content := [], filePath := [], fileName := [],
      fileType := [], repository := [], startLine := i, endLine := i })

/-- An embed-and-index success oracle under which exactly the 3 chunks with
`startLine ≥ 7` fail. -/
def ingestFixtureOk : Chunk → Bool := fun c => decide (c.startLine < 7)

/-- A concrete `package.json` search hit with raw score 1, comfortably above
the relevance floor once boosted. -/
def pkgJsonTopHit : SearchHit :=
  { score := 1, content := [], filePath := [],
    fileName := strL "package.json", chunkType := strL "configuration" }

/-- A one-line source file whose single function chunk exhibits the
double-append of the triggering line. -/
def cexContent : Str := strL "function foo() \x7b return 1; \x7d"

/-- The chunk `extractCodeChunks` emits for `cexContent`: its content holds the
triggering line twice. -/
def cexChunk : Chunk :=
  { type := ChunkType.function
    content := strL "function foo() \x7b return 1; \x7d\nfunction foo() \x7b return 1; \x7d\n"
    filePath := strL "a.js"
    fileName := strL "a.js"
    fileType := strL "javascript"
    repository := strL "r"
    startLine := 1
    endLine := 1
    functionName := some (strL "foo")
    className := none
    description := none }

/-- A three-line markdown fixture: one line of preamble, a header, a body
line. -/
def docCexContent : Str := strL "intro\n# Title\nbody"

/-- The single documentation chunk extracted from `docCexContent`. -/
def docCexChunk : Chunk :=
  { type := ChunkType.documentation
    content := strL "# Title\nbody\n"
    filePath := strL "README.md"
    fileName := strL "README.md"
    fileType := strL "markdown"
    repository := strL "r"
    startLine := 2
    endLine := 3
    functionName := none
    className := none
    description := some (strL "Title") }

/-! # Theorems -/

/-! ## Ranking and context assembly (claims C3–C6) -/

lemma adjustScore_eq_pow (q : Str) (c : SearchHit) :
    adjustScore q c = c.score * ((3 : ℚ)/2) ^ numBoosts q c := by
  unfold adjustScore numBoosts
  cases setupBoost q c <;> cases apiBoost q c <;> cases dbBoost q c <;>
    cases authBoost q c <;> simp <;> ring

lemma mem_filterAndRank {c : RankedHit} {results : List SearchHit} {q : Str}
    (h : c ∈ filterAndRankResults results q) :
    ∃ hit ∈ results, c = boostChunk (jsToLower q) hit := by
  unfold filterAndRankResults at h
  have h1 := (List.mem_filter.mp h).1
  rw [List.mem_mergeSort] at h1
  obtain ⟨hit, hm, he⟩ := List.mem_map.mp h1
  exact ⟨hit, hm, he.symm⟩

lemma rankLe_trans : ∀ a b c : RankedHit,
    rankLe a b = true → rankLe b c = true → rankLe a c = true := by
  intro a b c hab hbc
  simp only [rankLe, decide_eq_true_iff] at *
  exact le_trans hbc hab

lemma rankLe_total : ∀ a b : RankedHit, (rankLe a b || rankLe b a) = true := by
  intro a b
  simp only [rankLe, Bool.or_eq_true, decide_eq_true_iff]
  exact le_total b.adjustedScore a.adjustedScore

lemma filterAndRank_sorted (results : List SearchHit) (q : Str) :
    List.Pairwise (fun a b : RankedHit => b.adjustedScore ≤ a.adjustedScore)
      (filterAndRankResults results q) := by
  unfold filterAndRankResults
  refine List.Pairwise.sublist (List.filter_sublist _) ?_
  refine List.Pairwise.imp ?_
    (List.sorted_mergeSort rankLe_trans rankLe_total
      ((results.map (boostChunk (jsToLower q)))))
  intro a b h
  exact of_decide_eq_true h

/-- C3: in `filterAndRankResults`, every candidate's adjusted score is its raw
hybrid score times 1.5 for each triggered intent condition (the setup/install/
configure, api/endpoint/route, database/model/schema and auth/login/user
groups), boosts composing multiplicatively; in particular a query triggering
only the setup group gives a `package.json` candidate exactly 1.5 times its
raw score. -/
theorem filterAndRank_intent_boosts :
    ∀ (searchResults : List SearchHit) (query : Str),
      (∀ hit : SearchHit,
        (boostChunk (jsToLower query) hit).adjustedScore
          = hit.score * ((3 : ℚ)/2) ^ numBoosts (jsToLower query) hit)
      ∧ (∀ c ∈ filterAndRankResults searchResults query,
        ∃ hit ∈ searchResults, c = boostChunk (jsToLower query) hit ∧
          c.adjustedScore
            = hit.score * ((3 : ℚ)/2) ^ numBoosts (jsToLower query) hit)
      ∧ (∀ hit : SearchHit,
          setupQueryTrigger (jsToLower query) = true →
          apiQueryTrigger (jsToLower query) = false →
          dbQueryTrigger (jsToLower query) = false →
          authQueryTrigger (jsToLower query) = false →
          hit.fileName = strL "package.json" →
          (boostChunk (jsToLower query) hit).adjustedScore
            = (3 : ℚ)/2 * hit.score) := by
  intro searchResults query
  refine ⟨fun hit => adjustScore_eq_pow _ _, ?_, ?_⟩
  · intro c hc
    obtain ⟨hit, hm, he⟩ := mem_filterAndRank hc
    refine ⟨hit, hm, he, ?_⟩
    rw [he]
    exact adjustScore_eq_pow _ _
  · intro hit hsetup hapi hdb hauth hname
    have hb : setupBoost (jsToLower query) hit = true := by
      simp [setupBoost, hsetup, setupChunkSignal, hname]
    have h2 : apiBoost (jsToLower query) hit = false := by
      simp [apiBoost, hapi]
    have h3 : dbBoost (jsToLower query) hit = false := by
      simp [dbBoost, hdb]
    have h4 : authBoost (jsToLower query) hit = false := by
      simp [authBoost, hauth]
    show adjustScore (jsToLower query) hit = (3 : ℚ)/2 * hit.score
    unfold adjustScore
    rw [hb, h2, h3, h4]
    simp
    ring

/-- Witness for C3 at query `"setup"` and a `package.json` hit of raw score 2. -/
theorem filterAndRank_intent_boosts_witness :
    setupQueryTrigger (jsToLower (strL "setup")) = true ∧
    apiQueryTrigger (jsToLower (strL "setup")) = false ∧
    (boostChunk (jsToLower (strL "setup"))
        { score := 2, content := [], filePath := [],
          fileName := strL "package.json",
          chunkType := strL "configuration" }).adjustedScore
      = (3 : ℚ)/2 * 2 := by
  refine ⟨by decide, by decide, ?_⟩
  exact (filterAndRank_intent_boosts [] (strL "setup")).2.2
    { score := 2, content := [], filePath := [],
      fileName := strL "package.json", chunkType := strL "configuration" }
    (by decide) (by decide) (by decide) (by decide) rfl

/-- C4: every candidate at or below the 0.3 relevance floor is discarded
(the floor is a strict `>` comparison); when nothing exceeds the floor the
ranked result is empty, and `buildContext` of the empty list is the fixed
sentinel string. -/
theorem relevance_floor_exclusive :
    ∀ (searchResults : List SearchHit) (query : Str),
      (∀ c ∈ filterAndRankResults searchResults query,
        (3 : ℚ)/10 < c.adjustedScore)
      ∧ ((∀ hit ∈ searchResults,
            (boostChunk (jsToLower query) hit).adjustedScore ≤ (3 : ℚ)/10) →
          filterAndRankResults searchResults query = [])
      ∧ buildContext []
          = strL "No specific codebase context found for this query." := by
  intro searchResults query
  refine ⟨?_, ?_, rfl⟩
  · intro c hc
    have h2 := (List.mem_filter.mp hc).2
    exact of_decide_eq_true h2
  · intro hall
    unfold filterAndRankResults
    rw [List.filter_eq_nil_iff]
    intro c hc
    rw [List.mem_mergeSort] at hc
    obtain ⟨hit, hm, he⟩ := List.mem_map.mp hc
    have := hall hit hm
    rw [he] at this
    simp only [decide_eq_true_iff]
    exact not_lt.mpr this

/-- Witness for C4: a raw score of 1/5 boosted once by the setup group lands
exactly on 3/10 and is excluded, leaving the empty ranked list. -/
theorem relevance_floor_exclusive_witness :
    (∀ hit ∈ [pkgJsonFloorHit],
        (boostChunk (jsToLower (strL "setup")) hit).adjustedScore ≤ (3 : ℚ)/10)
    ∧ filterAndRankResults [pkgJsonFloorHit] (strL "setup") = [] := by
  have hyp0 : (boostChunk (jsToLower (strL "setup")) pkgJsonFloorHit).adjustedScore
      ≤ (3 : ℚ)/10 := by
    have hb : setupBoost (jsToLower (strL "setup")) pkgJsonFloorHit = true := by decide
    have h2 : apiBoost (jsToLower (strL "setup")) pkgJsonFloorHit = false := by decide
    have h3 : dbBoost (jsToLower (strL "setup")) pkgJsonFloorHit = false := by decide
    have h4 : authBoost (jsToLower (strL "setup")) pkgJsonFloorHit = false := by decide
    show adjustScore _ _ ≤ (3 : ℚ)/10
    unfold adjustScore
    rw [hb, h2, h3, h4]
    show pkgJsonFloorHit.score * ((3 : ℚ)/2) ≤ (3 : ℚ)/10
    show (1 : ℚ)/5 * ((3 : ℚ)/2) ≤ (3 : ℚ)/10
    norm_num
  have hyp : ∀ hit ∈ [pkgJsonFloorHit],
      (boostChunk (jsToLower (strL "setup")) hit).adjustedScore ≤ (3 : ℚ)/10 :=
    List.forall_mem_singleton.mpr hyp0
  exact ⟨hyp, (relevance_floor_exclusive _ (strL "setup")).2.1 hyp⟩

/-- C5: `searchRelevantContext` returns at most 8 chunks, in non-increasing
adjusted-score order, all drawn (via the boost map) from the candidate list the
hybrid search returned for the requested top-15. -/
theorem retrieve_top8_sorted :
    ∀ (hybridSearch : Nat → List SearchHit) (query : Str),
      (searchRelevantContext hybridSearch query).length ≤ 8
      ∧ List.Pairwise (fun a b : RankedHit => b.adjustedScore ≤ a.adjustedScore)
          (searchRelevantContext hybridSearch query)
      ∧ ∀ c ∈ searchRelevantContext hybridSearch query,
          ∃ hit ∈ hybridSearch 15, c = boostChunk (jsToLower query) hit := by
  intro hybridSearch query
  refine ⟨List.length_take_le 8 _, ?_, ?_⟩
  · exact List.Pairwise.sublist (List.take_sublist 8 _)
      (filterAndRank_sorted (hybridSearch 15) query)
  · intro c hc
    have hc' : c ∈ filterAndRankResults (hybridSearch 15) query :=
      List.mem_of_mem_take hc
    exact mem_filterAndRank hc'

/-- Witness for C5: a single-candidate search at query `"setup"`; the one
returned chunk is the boosted image of the one raw hit. -/
theorem retrieve_top8_sorted_witness :
    boostChunk (jsToLower (strL "setup")) pkgJsonTopHit
      ∈ searchRelevantContext (fun _ => [pkgJsonTopHit]) (strL "setup")
    ∧ ∃ hit ∈ (fun _ : Nat => [pkgJsonTopHit]) 15,
        boostChunk (jsToLower (strL "setup")) pkgJsonTopHit
          = boostChunk (jsToLower (strL "setup")) hit := by
  have hadj : (boostChunk (jsToLower (strL "setup")) pkgJsonTopHit).adjustedScore
      = (3 : ℚ)/2 := by
    have hb : setupBoost (jsToLower (strL "setup")) pkgJsonTopHit = true := by decide
    have h2 : apiBoost (jsToLower (strL "setup")) pkgJsonTopHit = false := by decide
    have h3 : dbBoost (jsToLower (strL "setup")) pkgJsonTopHit = false := by decide
    have h4 : authBoost (jsToLower (strL "setup")) pkgJsonTopHit = false := by decide
    show adjustScore (jsToLower (strL "setup")) pkgJsonTopHit = (3 : ℚ)/2
    unfold adjustScore
    rw [hb, h2, h3, h4]
    show (1 : ℚ) * ((3 : ℚ)/2) = (3 : ℚ)/2
    norm_num
  have hpred : decide ((3 : ℚ)/10
      < (boostChunk (jsToLower (strL "setup")) pkgJsonTopHit).adjustedScore) = true := by
    rw [decide_eq_true_iff, hadj]
    norm_num
  have hout : searchRelevantContext (fun _ => [pkgJsonTopHit]) (strL "setup")
      = [boostChunk (jsToLower (strL "setup")) pkgJsonTopHit] := by
    unfold searchRelevantContext filterAndRankResults
    simp only [List.map_cons, List.map_nil, List.mergeSort_singleton]
    simp only [List.filter_cons, List.filter_nil, hpred, if_true]
    rfl
  have hm : boostChunk (jsToLower (strL "setup")) pkgJsonTopHit
      ∈ searchRelevantContext (fun _ => [pkgJsonTopHit]) (strL "setup") := by
    rw [hout]
    exact List.mem_singleton.mpr rfl
  exact ⟨hm, (retrieve_top8_sorted (fun _ => [pkgJsonTopHit]) (strL "setup")).2.2
    (boostChunk (jsToLower (strL "setup")) pkgJsonTopHit) hm⟩

/-- C6: in `buildContext`, each chunk's rendered content is its first 1000
characters, with the truncation marker appended exactly when the content is
longer than 1000 characters: length 1001 yields 1000 characters plus the
marker, length exactly 1000 yields the whole content and no marker. -/
theorem context_truncation_1000 :
    (∀ chunk : RankedHit, chunk.content.length ≤ 1000 →
       renderedContent chunk.content = chunk.content)
    ∧ (∀ chunk : RankedHit, chunk.content.length = 1001 →
       renderedContent chunk.content = chunk.content.take 1000 ++ strL "..."
       ∧ (chunk.content.take 1000).length = 1000)
    ∧ (∀ (index : Nat) (chunk : RankedHit), ∃ pre,
        chunkBlock index chunk
          = pre ++ renderedContent chunk.content ++ strL "\n```\n\n")
    ∧ (∀ relevantChunks : List RankedHit, relevantChunks ≠ [] →
        buildContext relevantChunks
          = strL "## Relevant Codebase Information:\n\n"
              ++ contextBlocks 0 relevantChunks) := by
  refine ⟨?_, ?_, ?_, ?_⟩
  · intro chunk h
    unfold renderedContent
    rw [if_neg (by omega), List.take_of_length_le h, List.append_nil]
  · intro chunk h
    constructor
    · unfold renderedContent
      rw [if_pos (by omega)]
    · rw [List.length_take, h]
      exact min_eq_left (by omega)
  · intro index chunk
    refine ⟨strL "### " ++ natStr (index + 1) ++ strL ". " ++ chunk.fileName
      ++ strL " (" ++ chunk.chunkType ++ strL ")\n"
      ++ strL "**File Path:** " ++ chunk.filePath ++ strL "\n"
      ++ (match chunk.functionName with
          | some f => strL "**Function:** " ++ f ++ strL "\n"
          | none => [])
      ++ (match chunk.className with
          | some c => strL "**Class:** " ++ c ++ strL "\n"
          | none => [])
      ++ strL "**Content:**\n```\n", ?_⟩
    unfold chunkBlock
    simp only [List.append_assoc]
  · intro relevantChunks h
    unfold buildContext
    rw [if_neg (by simpa using List.length_pos.mpr h |>.ne')]

/-- Witness for C6 on a 1001-character content: exactly 1000 characters are
kept and the marker is appended; and a 1000-character content is untouched. -/
theorem context_truncation_1000_witness :
    ((⟨⟨1, List.replicate 1001 'a', [], [], [], none, none⟩, 1⟩ :
        RankedHit).content.length = 1001
      ∧ renderedContent (List.replicate 1001 'a')
          = (List.replicate 1001 'a').take 1000 ++ strL "..."
      ∧ ((List.replicate 1001 'a').take 1000).length = 1000)
    ∧ ((⟨⟨1, List.replicate 1000 'b', [], [], [], none, none⟩, 1⟩ :
        RankedHit).content.length ≤ 1000
      ∧ renderedContent (List.replicate 1000 'b') = List.replicate 1000 'b') := by
  have h1 : (⟨⟨1, List.replicate 1001 'a', [], [], [], none, none⟩, 1⟩ :
      RankedHit).content.length = 1001 := by
    show (List.replicate 1001 'a').length = 1001
    exact List.length_replicate 1001 'a'
  have h2 : (⟨⟨1, List.replicate 1000 'b', [], [], [], none, none⟩, 1⟩ :
      RankedHit).content.length ≤ 1000 := by
    show (List.replicate 1000 'b').length ≤ 1000
    exact le_of_eq (List.length_replicate 1000 'b')
  have r1 := (context_truncation_1000.2.1
    (⟨⟨1, List.replicate 1001 'a', [], [], [], none, none⟩, 1⟩ : RankedHit) h1)
  have r2 := (context_truncation_1000.1
    (⟨⟨1, List.replicate 1000 'b', [], [], [], none, none⟩, 1⟩ : RankedHit) h2)
  exact ⟨⟨h1, r1.1, r1.2⟩, ⟨h2, r2⟩⟩

/-! ## Ingestion orchestration (claim C8) -/

lemma ingestCountGo_eq (itemOk : Chunk → Bool) :
    ∀ (fuel : Nat) (l : List Chunk) (acc : Nat), l.length ≤ fuel →
      ingestCountGo itemOk fuel l acc = acc + (l.filter itemOk).length := by
  intro fuel
  induction fuel with
  | zero =>
    intro l acc h
    have : l = [] := List.length_eq_zero.mp (Nat.le_zero.mp h)
    subst this
    simp [ingestCountGo]
  | succ n ih =>
    intro l acc h
    cases l with
    | nil => simp [ingestCountGo]
    | cons x xs =>
      show ingestCountGo itemOk n ((x :: xs).drop 10)
          (acc + (((x :: xs).take 10).filter itemOk).length)
        = acc + ((x :: xs).filter itemOk).length
      rw [ih ((x :: xs).drop 10) _ (by rw [List.length_drop]; simp at h ⊢; omega)]
      have hsplit := List.take_append_drop 10 (x :: xs)
      conv_rhs => rw [← hsplit]
      rw [List.filter_append, List.length_append]
      omega

/-- C8: a failing embed or index call for a single chunk is absorbed by the
per-item `try/catch`: the chunk is merely excluded from `processedCount`, the
batch loop continues, and the job still finishes `completed` with the count of
successful chunks; `failed` arises only from an error outside the per-item
loop (here: the fetch/processing phase). -/
theorem ingestion_partial_failure_completed :
    ∀ (fetchChunks : Except Str (List Chunk)) (itemOk : Chunk → Bool),
      (∀ chunks, fetchChunks = Except.ok chunks →
        processRepositoryAsync fetchChunks itemOk
          = { status := strL "completed",
              message := strL "Successfully processed "
                ++ natStr ((chunks.filter itemOk).length) ++ strL " chunks" })
      ∧ (∀ e, fetchChunks = Except.error e →
        processRepositoryAsync fetchChunks itemOk
          = { status := strL "failed", message := e }) := by
  intro fetchChunks itemOk
  constructor
  · intro chunks h
    subst h
    show ({ status := strL "completed",
            message := strL "Successfully processed "
              ++ natStr (ingestProcessedCount itemOk chunks) ++ strL " chunks" }
        : IngestionRecord) = _
    unfold ingestProcessedCount
    rw [ingestCountGo_eq itemOk chunks.length chunks 0 le_rfl, Nat.zero_add]
  · intro e h
    subst h
    rfl

/-- Witness for C8: a batch of 10 chunks where 3 items fail still completes
with a success count of 7. -/
theorem ingestion_partial_failure_completed_witness :
    ingestFixtureChunks.length = 10
    ∧ (ingestFixtureChunks.filter ingestFixtureOk).length = 7
    ∧ processRepositoryAsync (Except.ok ingestFixtureChunks) ingestFixtureOk
        = { status := strL "completed",
            message := strL "Successfully processed 7 chunks" } := by
  refine ⟨by decide, by decide, ?_⟩
  have h := (ingestion_partial_failure_completed
    (Except.ok ingestFixtureChunks) ingestFixtureOk).1 ingestFixtureChunks rfl
  rw [h]
  decide

/-! ## Configuration chunks (claim C9) -/

/-- C9: for a `.json` file, `extractConfigChunks` emits exactly one
`configuration` chunk holding the 2-space pretty-printed parse when the
content parses as JSON, and silently returns the empty list (no error reaches
the caller — the function is total) when parsing fails. -/
theorem config_chunk_json_parse :
    ∀ (content filePath fileName repositoryName : Str),
      (∀ v, jsonParse content = some v →
        extractConfigChunks content filePath fileName repositoryName
          = [{ type := ChunkType.configuration,
               content := jsonStringify 0 v,
               filePath := filePath, fileName := fileName,
               fileType := strL "json", repository := repositoryName,
               startLine := 1, endLine := (splitLines content).length,
               description := some (strL "Configuration file: " ++ fileName) }])
      ∧ (jsonParse content = none →
        extractConfigChunks content filePath fileName repositoryName = []) := by
  intro content fp fn rn
  constructor
  · intro v h
    unfold extractConfigChunks
    rw [h]
  · intro h
    unfold extractConfigChunks
    rw [h]

/-- Witness for C9: a parsing JSON object yields the single pretty-printed
configuration chunk; malformed JSON yields the empty list. -/
theorem config_chunk_json_parse_witness :
    jsonParse (strL "\x7b\"a\": 1\x7d")
      = some (JValue.obj [(strL "a", JValue.num (strL "1"))])
    ∧ extractConfigChunks (strL "\x7b\"a\": 1\x7d") (strL "package.json")
        (strL "package.json") (strL "repo")
        = [{ type := ChunkType.configuration,
             content := jsonStringify 0
               (JValue.obj [(strL "a", JValue.num (strL "1"))]),
             filePath := strL "package.json", fileName := strL "package.json",
             fileType := strL "json", repository := strL "repo",
             startLine := 1,
             endLine := (splitLines (strL "\x7b\"a\": 1\x7d")).length,
             description := some (strL "Configuration file: "
               ++ strL "package.json") }]
    ∧ jsonParse (strL "\x7b bad") = none
    ∧ extractConfigChunks (strL "\x7b bad") (strL "x.json") (strL "x.json")
        (strL "repo") = [] := by
  refine ⟨rfl, ?_, rfl, ?_⟩
  · exact (config_chunk_json_parse _ _ _ _).1 _ rfl
  · exact (config_chunk_json_parse _ _ _ _).2 rfl

/-! ## Scan infrastructure lemmas (claims C1, C2, C7, C10) -/

lemma splitLines_ne_nil (s : Str) : splitLines s ≠ [] := by
  induction s with
  | nil => simp [splitLines]
  | cons c cs ih =>
    unfold splitLines
    by_cases h : c = '\n'
    · simp [h]
    · simp only [h, if_false]
      cases hs : splitLines cs with
      | nil => exact absurd hs ih
      | cons hd tl => simp

lemma splitLines_length_pos (s : Str) : 1 ≤ (splitLines s).length :=
  List.length_pos.mpr (splitLines_ne_nil s)

lemma drop_cons_facts {l : List Str} {m : Nat} {x : Str} {rest : List Str}
    (h : l.drop m = x :: rest) :
    m < l.length ∧ l[m]? = some x ∧ l.drop (m + 1) = rest := by
  refine ⟨?_, ?_, ?_⟩
  · by_contra hm
    rw [List.drop_eq_nil_of_le (le_of_not_lt hm)] at h
    exact List.noConfusion h
  · have h0 : (l.drop m)[0]? = l[m + 0]? := List.getElem?_drop l m 0
    rw [h] at h0
    simpa using h0.symm
  · have := List.drop_drop 1 m l
    rw [h] at this
    simpa using this.symm

lemma take_succ_getD {l : List Str} {k : Nat} {x : Str}
    (h : l[k]? = some x) : l.take (k + 1) = l.take k ++ [x] := by
  rw [List.take_succ, h]
  rfl

lemma flagAfter_append (seg : List Str) (l : Str) (f : Bool) :
    flagAfter (seg ++ [l]) f = commentStep (flagAfter seg f) (jsTrim l) := by
  unfold flagAfter
  rw [List.foldl_append]
  rfl

lemma flagAfter_cons (s : Str) (rest : List Str) (f : Bool) :
    flagAfter (s :: rest) f = flagAfter rest (commentStep f (jsTrim s)) := rfl

lemma renderScanSeg_append (seg : List Str) (l : Str) (f : Bool) :
    renderScanSeg (seg ++ [l]) f
      = renderScanSeg seg f
        ++ (if commentStep (flagAfter seg f) (jsTrim l) then []
            else l ++ ['\n']) := by
  induction seg generalizing f with
  | nil =>
    simp only [List.nil_append, renderScanSeg, flagAfter, List.foldl_nil]
    by_cases h : commentStep f (jsTrim l)
    · simp [h]
    · simp [h]
  | cons s rest ih =>
    simp only [List.cons_append, renderScanSeg, List.append_eq, flagAfter_cons]
    by_cases h : commentStep f (jsTrim s)
    · simp only [h, if_true]
      exact ih true
    · simp only [h, if_false]
      rw [ih false]
      simp [List.append_assoc]

lemma commentStep_false {inC : Bool} {t : Str}
    (h : commentStep inC t = false) : commentStep false t = false := by
  unfold commentStep at h ⊢
  by_cases h1 : jsIncludes t (strL "*/")
  · simp [h1]
  · simp only [h1, if_false] at h ⊢
    by_cases h2 : jsIncludes t (strL "/*")
    · simp [h2] at h
    · simp [h2]

lemma joinLinesNl_append (seg : List Str) (l : Str) :
    joinLinesNl (seg ++ [l]) = joinLinesNl seg ++ l ++ ['\n'] := by
  unfold joinLinesNl
  rw [List.flatMap_append]
  simp [List.append_assoc]

lemma findIdx_le_of_getD {p : Str → Bool} :
    ∀ (l : List Str) (i : Nat), i < l.length → p (l.getD i []) = true →
      l.findIdx p ≤ i := by
  intro l
  induction l with
  | nil => intro i hi; simp at hi
  | cons x xs ih =>
    intro i hi hp
    cases i with
    | zero =>
      simp only [List.getD_cons_zero] at hp
      rw [List.findIdx_cons, hp]
      simp
    | succ j =>
      rw [List.findIdx_cons]
      by_cases hx : p x
      · simp [hx]
      · simp only [hx, cond_false]
        have := ih j (by simpa using hi) (by simpa using hp)
        omega

lemma familyStep_cases (line : Str) (i : Nat) (fp fn rn : Str) (ty : ChunkType)
    (test : Str → Bool) (st : List Chunk × Option Chunk × Int) :
    (∀ c ∈ (familyStep line i fp fn rn ty test st).1,
      c ∈ st.1 ∨ st.2.1 = some c ∨ c = newCodeChunk ty line i fp fn rn)
    ∧ (∀ c, (familyStep line i fp fn rn ty test st).2.1 = some c →
      st.2.1 = some c ∨ c = newCodeChunk ty line i fp fn rn) := by
  obtain ⟨acc, cur, brace⟩ := st
  cases cur with
  | none =>
    by_cases h : test line
    · constructor
      · intro c hc
        exact Or.inl (by simpa [familyStep, h] using hc)
      · intro c hc
        have hc' : some (newCodeChunk ty line i fp fn rn) = some c := by
          simpa [familyStep, h] using hc
        exact Or.inr ((Option.some.injEq _ _).mp hc').symm
    · constructor
      · intro c hc
        exact Or.inl (by simpa [familyStep, h] using hc)
      · intro c hc
        exact Or.inl (by simpa [familyStep, h] using hc)
  | some c0 =>
    by_cases h : test line
    · constructor
      · intro c hc
        have hc' : c ∈ pushIfNonWs acc c0 := by
          simpa [familyStep, h] using hc
        unfold pushIfNonWs at hc'
        by_cases ht : jsTrim c0.content = []
        · rw [if_pos ht] at hc'
          exact Or.inl hc'
        · rw [if_neg ht] at hc'
          rcases List.mem_append.mp hc' with h1 | h1
          · exact Or.inl h1
          · exact Or.inr (Or.inl (by rw [List.mem_singleton.mp h1]))
      · intro c hc
        have hc' : some (newCodeChunk ty line i fp fn rn) = some c := by
          simpa [familyStep, h] using hc
        exact Or.inr ((Option.some.injEq _ _).mp hc').symm
    · constructor
      · intro c hc
        exact Or.inl (by simpa [familyStep, h] using hc)
      · intro c hc
        exact Or.inl (by simpa [familyStep, h] using hc)

lemma matchFamilies_cases (line : Str) (i : Nat) (fp fn rn : Str)
    (st : List Chunk × Option Chunk × Int) :
    (∀ c ∈ (matchFamilies line i fp fn rn st).1,
      c ∈ st.1 ∨ st.2.1 = some c ∨
        ∃ ty, (ty = ChunkType.function ∨ ty = ChunkType.cls ∨ ty = ChunkType.route)
          ∧ c = newCodeChunk ty line i fp fn rn)
    ∧ (∀ c, (matchFamilies line i fp fn rn st).2.1 = some c →
      st.2.1 = some c ∨
        ∃ ty, (ty = ChunkType.function ∨ ty = ChunkType.cls ∨ ty = ChunkType.route)
          ∧ c = newCodeChunk ty line i fp fn rn) := by
  have h1 := familyStep_cases line i fp fn rn ChunkType.function functionTest st
  have h2 := familyStep_cases line i fp fn rn ChunkType.cls classTest
    (familyStep line i fp fn rn ChunkType.function functionTest st)
  have h3 := familyStep_cases line i fp fn rn ChunkType.route routeTest
    (familyStep line i fp fn rn ChunkType.cls classTest
      (familyStep line i fp fn rn ChunkType.function functionTest st))
  constructor
  · intro c hc
    rcases h3.1 c hc with hm | hm | hm
    · rcases h2.1 c hm with hm2 | hm2 | hm2
      · rcases h1.1 c hm2 with hm3 | hm3 | hm3
        · exact Or.inl hm3
        · exact Or.inr (Or.inl hm3)
        · exact Or.inr (Or.inr ⟨ChunkType.function, Or.inl rfl, hm3⟩)
      · rcases h1.2 c hm2 with hm3 | hm3
        · exact Or.inr (Or.inl hm3)
        · exact Or.inr (Or.inr ⟨ChunkType.function, Or.inl rfl, hm3⟩)
      · exact Or.inr (Or.inr ⟨ChunkType.cls, Or.inr (Or.inl rfl), hm2⟩)
    · rcases h2.2 c hm with hm2 | hm2
      · rcases h1.2 c hm2 with hm3 | hm3
        · exact Or.inr (Or.inl hm3)
        · exact Or.inr (Or.inr ⟨ChunkType.function, Or.inl rfl, hm3⟩)
      · exact Or.inr (Or.inr ⟨ChunkType.cls, Or.inr (Or.inl rfl), hm2⟩)
    · exact Or.inr (Or.inr ⟨ChunkType.route, Or.inr (Or.inr rfl), hm⟩)
  · intro c hc
    rcases h3.2 c hc with hm | hm
    · rcases h2.2 c hm with hm2 | hm2
      · rcases h1.2 c hm2 with hm3 | hm3
        · exact Or.inl hm3
        · exact Or.inr ⟨ChunkType.function, Or.inl rfl, hm3⟩
      · exact Or.inr ⟨ChunkType.cls, Or.inr (Or.inl rfl), hm2⟩
    · exact Or.inr ⟨ChunkType.route, Or.inr (Or.inr rfl), hm⟩

lemma codeCurProp_to_acc {lines : List Str} {j : Nat} {f : Bool} {c : Chunk}
    (h : codeCurProp lines j f c) (hj : j - 1 ≤ lines.length) :
    codeAccProp lines c := by
  obtain ⟨hty, hs1, hse, hej, k, hk, hcontent, _⟩ := h
  exact ⟨hty, ⟨hs1, hse, by omega⟩, ⟨k, by omega, hcontent⟩⟩

lemma extractLoop_inv (fp fn rn : Str) (lines : List Str) :
    ∀ (rest : List Str) (i : Nat) (cur : Option Chunk) (brace : Int)
      (inC : Bool) (acc : List Chunk),
      rest = lines.drop (i - 1) → 1 ≤ i → i - 1 ≤ lines.length →
      (∀ c ∈ acc, codeAccProp lines c) →
      (∀ c, cur = some c → codeCurProp lines i inC c) →
      ∀ c ∈ extractLoop fp fn rn rest i cur brace inC acc, codeAccProp lines c := by
  intro rest
  induction rest with
  | nil =>
    intro i cur brace inC acc _ _ hiN hacc hcur c hc
    cases hcur0 : cur with
    | none =>
      rw [hcur0] at hc
      simp only [extractLoop] at hc
      exact hacc c hc
    | some c0 =>
      rw [hcur0] at hc
      simp only [extractLoop] at hc
      have hp := hcur c0 hcur0
      unfold pushIfNonWs at hc
      by_cases ht : jsTrim c0.content = []
      · rw [if_pos ht] at hc
        exact hacc c hc
      · rw [if_neg ht] at hc
        rcases List.mem_append.mp hc with h1 | h1
        · exact hacc c h1
        · rw [List.mem_singleton.mp h1]
          exact codeCurProp_to_acc hp hiN
  | cons line rest' ih =>
    intro i cur brace inC acc hrest hi hiN hacc hcur c hc
    obtain ⟨hiltN, hgetI, hdropI⟩ := drop_cons_facts hrest.symm
    have hdropI' : rest' = lines.drop (i + 1 - 1) := by
      rw [← hdropI]
      congr 1
      omega
    have hgetDI : lines.getD (i - 1) [] = line := by
      rw [List.getD_eq_getElem?_getD, hgetI]
      rfl
    simp only [extractLoop] at hc
    by_cases h1 : commentStep inC (jsTrim line) = true
    · rw [if_pos h1] at hc
      refine ih (i + 1) cur brace _ acc hdropI' (by omega) (by omega) hacc ?_ c hc
      intro c0 hc0
      obtain ⟨hty, hs1, hse, hei, k, hk, hcontent, hflag⟩ := hcur c0 hc0
      have hgetk : (lines.drop (c0.startLine - 1))[k]? = some line := by
        rw [List.getElem?_drop, hk, hgetI]
      have hseg := take_succ_getD hgetk
      refine ⟨hty, hs1, hse, by omega, k + 1, by omega, ?_, ?_⟩
      · unfold codeContentEq at hcontent ⊢
        rw [hseg, renderScanSeg_append, hflag, if_pos h1, List.append_nil]
        exact hcontent
      · rw [hseg, flagAfter_append, hflag]
    · have h1' : commentStep inC (jsTrim line) = false := Bool.eq_false_iff.mpr h1
      rw [if_neg h1] at hc
      by_cases h2 : (jsStartsWith (jsTrim line) (strL "//")
          || jsStartsWith (jsTrim line) (strL "#") || (jsTrim line).isEmpty) = true
      · rw [if_pos h2] at hc
        refine ih (i + 1) _ brace _ acc hdropI' (by omega) (by omega) hacc ?_ c hc
        intro c' hmap
        cases hcur0 : cur with
        | none =>
          rw [hcur0] at hmap
          exact absurd hmap (by simp)
        | some c0 =>
          rw [hcur0] at hmap
          have hmap2 : ({ c0 with content := c0.content ++ line ++ ['\n'] } : Chunk) = c' :=
            Option.some.inj hmap
          obtain ⟨hty, hs1, hse, hei, k, hk, hcontent, hflag⟩ := hcur c0 hcur0
          have hgetk : (lines.drop (c0.startLine - 1))[k]? = some line := by
            rw [List.getElem?_drop, hk, hgetI]
          have hseg := take_succ_getD hgetk
          subst hmap2
          refine ⟨hty, hs1, hse,
            (show c0.endLine < i + 1 by omega),
            k + 1,
            (show c0.startLine - 1 + (k + 1) = i + 1 - 1 by omega), ?_, ?_⟩
          · unfold codeContentEq at hcontent ⊢
            show c0.content ++ line ++ ['\n'] = _
            rw [hseg, renderScanSeg_append, hflag,
              if_neg (by rw [h1']; exact Bool.false_ne_true)]
            rw [hcontent]
            simp [List.append_assoc]
          · show flagAfter ((lines.drop (c0.startLine - 1)).take (k + 1)) false = _
            rw [hseg, flagAfter_append, hflag]
      · rw [if_neg h2] at hc
        have hacc1 : ∀ cc ∈ (matchFamilies line i fp fn rn (acc, cur, brace)).1,
            codeAccProp lines cc := by
          intro cc hcc
          rcases (matchFamilies_cases line i fp fn rn (acc, cur, brace)).1 cc hcc
            with hm | hm | ⟨ty, hty3, rfl⟩
          · exact hacc cc hm
          · exact codeCurProp_to_acc (hcur cc hm) (by omega)
          · refine ⟨?_, ?_, 0,
              (show (newCodeChunk ty line i fp fn rn).startLine - 1 + 0 ≤ lines.length
                from by show i - 1 + 0 ≤ lines.length; omega), ?_⟩
            · show ty = ChunkType.function ∨ ty = ChunkType.cls ∨ ty = ChunkType.route
              exact hty3
            · exact ⟨(show 1 ≤ i from hi), (show i ≤ i from le_rfl),
                (show i ≤ lines.length by omega)⟩
            · show (newCodeChunk ty line i fp fn rn).content
                = lines.getD (i - 1) [] ++ ['\n']
                  ++ renderScanSeg ((lines.drop (i - 1)).take 0) false
              rw [hgetDI]
              show line ++ ['\n'] = line ++ ['\n'] ++ renderScanSeg [] false
              rw [show renderScanSeg [] false = [] from rfl, List.append_nil]
        split at hc
        · -- no pattern matched and no accumulator survives: recurse with `none`
          exact ih (i + 1) none _ _ _ hdropI' (by omega) (by omega) hacc1
            (by intro cc h0; exact absurd h0 (by simp)) c hc
        · rename_i c0 hst
          have hcur2 : codeCurProp lines (i + 1) (commentStep inC (jsTrim line))
              { c0 with content := c0.content ++ line ++ ['\n'], endLine := i } := by
            rcases (matchFamilies_cases line i fp fn rn (acc, cur, brace)).2 c0 hst
              with hm | ⟨ty, hty3, rfl⟩
            · obtain ⟨hty, hs1, hse, hei, k, hk, hcontent, hflag⟩ := hcur c0 hm
              have hgetk : (lines.drop (c0.startLine - 1))[k]? = some line := by
                rw [List.getElem?_drop, hk, hgetI]
              have hseg := take_succ_getD hgetk
              refine ⟨hty,
                (show 1 ≤ c0.startLine from hs1),
                (show c0.startLine ≤ i by omega),
                (show i < i + 1 by omega),
                k + 1,
                (show c0.startLine - 1 + (k + 1) = i + 1 - 1 by omega), ?_, ?_⟩
              · unfold codeContentEq at hcontent ⊢
                show c0.content ++ line ++ ['\n'] = _
                rw [hseg, renderScanSeg_append, hflag,
                  if_neg (by rw [h1']; exact Bool.false_ne_true)]
                rw [hcontent]
                simp [List.append_assoc]
              · show flagAfter ((lines.drop (c0.startLine - 1)).take (k + 1)) false = _
                rw [hseg, flagAfter_append, hflag]
            · have hctail : commentStep false (jsTrim line) = false := commentStep_false h1'
              have htake1 : (lines.drop (i - 1)).take 1 = [line] := by
                rw [← hrest]
                rfl
              refine ⟨?_, (show 1 ≤ i from hi), (show i ≤ i from le_rfl),
                (show i < i + 1 by omega), 1,
                (show i - 1 + 1 = i + 1 - 1 by omega), ?_, ?_⟩
              · show ty = ChunkType.function ∨ ty = ChunkType.cls ∨ ty = ChunkType.route
                exact hty3
              · show (line ++ ['\n']) ++ line ++ ['\n']
                  = lines.getD (i - 1) [] ++ ['\n']
                    ++ renderScanSeg ((lines.drop (i - 1)).take 1) false
                rw [hgetDI, htake1]
                show (line ++ ['\n']) ++ line ++ ['\n']
                  = line ++ ['\n'] ++ (if commentStep false (jsTrim line) then []
                      else line ++ ['\n'] ++ renderScanSeg [] false)
                rw [if_neg (by rw [hctail]; exact Bool.false_ne_true)]
                simp [List.append_assoc, renderScanSeg]
              · show flagAfter ((lines.drop (i - 1)).take 1) false
                  = commentStep inC (jsTrim line)
                rw [htake1, h1']
                show commentStep false (jsTrim line) = false
                exact hctail
          split at hc
          · -- the chunk closed: it is pushed and the scan continues bare
            refine ih (i + 1) none _ _ _ hdropI' (by omega) (by omega) ?_
              (by intro cc h0; exact absurd h0 (by simp)) c hc
            intro cc hcc
            rcases List.mem_append.mp hcc with hmm | hmm
            · exact hacc1 cc hmm
            · rw [List.mem_singleton.mp hmm]
              exact codeCurProp_to_acc hcur2 (by omega)
          · -- the chunk stays open
            refine ih (i + 1) _ _ _ _ hdropI' (by omega) (by omega) hacc1 ?_ c hc
            intro cc h0
            rw [Option.some.injEq] at h0
            rw [← h0]
            exact hcur2

lemma extractCodeChunks_inv (content fp fn rn : Str) :
    ∀ c ∈ extractCodeChunks content fp fn rn, codeAccProp (splitLines content) c := by
  intro c hc
  exact extractLoop_inv fp fn rn (splitLines content) (splitLines content) 1 none 0 false []
    (by simp) le_rfl (by omega) (by simp)
    (by intro c0 h0; exact absurd h0 (by simp)) c hc

lemma docCurProp_to_chunk {lines : List Str} {i : Nat} {c : Chunk}
    (h : docCurProp lines i c) (hi : 1 ≤ i) (hiN : i - 1 ≤ lines.length) :
    docChunkProp lines c := by
  obtain ⟨hty, hs1, hse, hei, hdesc, hcontent⟩ := h
  refine ⟨hty, hs1, hse, by omega, hdesc, ?_⟩
  rw [show c.endLine + 1 - c.startLine = i - c.startLine by omega]
  exact hcontent

lemma docLoop_inv (fp fn rn : Str) (lines : List Str) :
    ∀ (rest : List Str) (i : Nat) (cur : Option Chunk) (acc : List Chunk),
      rest = lines.drop (i - 1) → 1 ≤ i → i - 1 ≤ lines.length →
      (∀ c ∈ acc, docChunkProp lines c) →
      (∀ c, cur = some c → docCurProp lines i c) →
      ∀ c ∈ docLoop fp fn rn rest i cur acc, docChunkProp lines c := by
  intro rest
  induction rest with
  | nil =>
    intro i cur acc _ hi hiN hacc hcur c hc
    cases hcur0 : cur with
    | none =>
      rw [hcur0] at hc
      simp only [docLoop] at hc
      exact hacc c hc
    | some c0 =>
      rw [hcur0] at hc
      simp only [docLoop] at hc
      unfold pushIfNonWs at hc
      by_cases ht : jsTrim c0.content = []
      · rw [if_pos ht] at hc
        exact hacc c hc
      · rw [if_neg ht] at hc
        rcases List.mem_append.mp hc with h1 | h1
        · exact hacc c h1
        · rw [List.mem_singleton.mp h1]
          exact docCurProp_to_chunk (hcur c0 hcur0) hi hiN
  | cons line rest' ih =>
    intro i cur acc hrest hi hiN hacc hcur c hc
    obtain ⟨hiltN, hgetI, hdropI⟩ := drop_cons_facts hrest.symm
    have hdropI' : rest' = lines.drop (i + 1 - 1) := by
      rw [← hdropI]
      congr 1
      omega
    have hgetDI : lines.getD (i - 1) [] = line := by
      rw [List.getD_eq_getElem?_getD, hgetI]
      rfl
    have htake1 : (lines.drop (i - 1)).take 1 = [line] := by
      rw [← hrest]
      rfl
    cases hcur0 : cur with
    | none =>
      rw [hcur0] at hc
      simp only [docLoop] at hc
      split at hc
      · rename_i title heq
        refine ih (i + 1) _ acc hdropI' (by omega) (by omega) hacc ?_ c hc
        intro cc h0
        rw [Option.some.injEq] at h0
        rw [← h0]
        refine ⟨rfl, (show 1 ≤ i from hi), (show i ≤ i from le_rfl),
          (show i = i + 1 - 1 by omega), ⟨title, ?_, rfl⟩, ?_⟩
        · rw [hgetDI]
          exact heq
        · show line ++ ['\n']
            = joinLinesNl ((lines.drop (i - 1)).take (i + 1 - i))
          rw [show i + 1 - i = 1 by omega, htake1]
          show line ++ ['\n'] = line ++ ['\n'] ++ []
          rw [List.append_nil]
      · exact ih (i + 1) none acc hdropI' (by omega) (by omega) hacc
          (by intro cc h0; exact absurd h0 (by simp)) c hc
    | some c0 =>
      rw [hcur0] at hc
      simp only [docLoop] at hc
      split at hc
      · rename_i title heq
        refine ih (i + 1) _ _ hdropI' (by omega) (by omega) ?_ ?_ c hc
        · intro cc hcc
          unfold pushIfNonWs at hcc
          by_cases ht : jsTrim c0.content = []
          · rw [if_pos ht] at hcc
            exact hacc cc hcc
          · rw [if_neg ht] at hcc
            rcases List.mem_append.mp hcc with h1 | h1
            · exact hacc cc h1
            · rw [List.mem_singleton.mp h1]
              exact docCurProp_to_chunk (hcur c0 hcur0) hi (by omega)
        · intro cc h0
          rw [Option.some.injEq] at h0
          rw [← h0]
          refine ⟨rfl, (show 1 ≤ i from hi), (show i ≤ i from le_rfl),
            (show i = i + 1 - 1 by omega), ⟨title, ?_, rfl⟩, ?_⟩
          · rw [hgetDI]
            exact heq
          · show line ++ ['\n']
              = joinLinesNl ((lines.drop (i - 1)).take (i + 1 - i))
            rw [show i + 1 - i = 1 by omega, htake1]
            show line ++ ['\n'] = line ++ ['\n'] ++ []
            rw [List.append_nil]
      · refine ih (i + 1) _ acc hdropI' (by omega) (by omega) hacc ?_ c hc
        intro cc h0
        rw [Option.some.injEq] at h0
        rw [← h0]
        obtain ⟨hty, hs1, hse, hei, hdesc, hcontent⟩ := hcur c0 hcur0
        have hgetk : (lines.drop (c0.startLine - 1))[i - c0.startLine]? = some line := by
          rw [List.getElem?_drop,
            show c0.startLine - 1 + (i - c0.startLine) = i - 1 by omega, hgetI]
        have hseg := take_succ_getD hgetk
        refine ⟨hty,
          (show 1 ≤ c0.startLine from hs1),
          (show c0.startLine ≤ i by omega),
          (show i = i + 1 - 1 by omega), hdesc, ?_⟩
        show c0.content ++ line ++ ['\n']
          = joinLinesNl ((lines.drop (c0.startLine - 1)).take (i + 1 - c0.startLine))
        rw [show i + 1 - c0.startLine = (i - c0.startLine) + 1 by omega, hseg,
          joinLinesNl_append, ← hcontent]

lemma docLoop_no_header (fp fn rn : Str) :
    ∀ (rest : List Str) (i : Nat) (acc : List Chunk),
      (∀ l ∈ rest, headerMatch l = none) →
      docLoop fp fn rn rest i none acc = acc := by
  intro rest
  induction rest with
  | nil =>
    intro i acc _
    rfl
  | cons l rest' ih =>
    intro i acc hall
    have h0 : headerMatch l = none := hall l (by simp)
    simp only [docLoop, h0]
    exact ih (i + 1) acc (fun x hx => hall x (by simp [hx]))

lemma extractDocumentationChunks_inv (content fp fn rn : Str) :
    ∀ c ∈ extractDocumentationChunks content fp fn rn,
      docChunkProp (splitLines content) c := by
  intro c hc
  exact docLoop_inv fp fn rn (splitLines content) (splitLines content) 1 none []
    (by simp) le_rfl (by omega) (by simp)
    (by intro c0 h0; exact absurd h0 (by simp)) c hc

lemma extractConfigChunks_type (content fp fn rn : Str) :
    ∀ c ∈ extractConfigChunks content fp fn rn,
      c.type = ChunkType.configuration := by
  intro c hc
  unfold extractConfigChunks at hc
  cases h : jsonParse content with
  | none =>
    rw [h] at hc
    exact absurd hc (by simp)
  | some v =>
    rw [h] at hc
    rw [List.mem_singleton.mp hc]

/-- C1: every chunk emitted for a file — `file_overview`, code, documentation
or configuration — satisfies `endLine ≥ startLine ≥ 1` and
`endLine ≤ total lines of the file`. -/
theorem chunk_line_ranges_within_file :
    ∀ (content relativePath repositoryName : Str),
      ∀ c ∈ processFile content relativePath repositoryName,
        1 ≤ c.startLine ∧ c.startLine ≤ c.endLine ∧
          c.endLine ≤ (splitLines content).length := by
  intro content rp rn c hc
  unfold processFile at hc
  rcases List.mem_cons.mp hc with h | h
  · subst h
    exact ⟨le_rfl, splitLines_length_pos content, le_rfl⟩
  · split at h
    · obtain ⟨_, hb, _⟩ := extractCodeChunks_inv content rp (basename rp) rn c h
      exact hb
    · split at h
      · obtain ⟨_, h1, h2, h3, _, _⟩ :=
          extractDocumentationChunks_inv content rp (basename rp) rn c h
        exact ⟨h1, h2, h3⟩
      · split at h
        · unfold extractConfigChunks at h
          cases hp : jsonParse content with
          | none =>
            rw [hp] at h
            exact absurd h (by simp)
          | some v =>
            rw [hp] at h
            rw [List.mem_singleton.mp h]
            exact ⟨le_rfl, splitLines_length_pos content, le_rfl⟩
        · exact absurd h (by simp)

/-- Witness for C1 at a one-line text file, whose only chunk is the overview. -/
theorem chunk_line_ranges_within_file_witness :
    fileOverviewChunk (strL "x") (strL "a.txt") (strL "r")
      ∈ processFile (strL "x") (strL "a.txt") (strL "r")
    ∧ (1 ≤ (fileOverviewChunk (strL "x") (strL "a.txt") (strL "r")).startLine
       ∧ (fileOverviewChunk (strL "x") (strL "a.txt") (strL "r")).startLine
           ≤ (fileOverviewChunk (strL "x") (strL "a.txt") (strL "r")).endLine
       ∧ (fileOverviewChunk (strL "x") (strL "a.txt") (strL "r")).endLine
           ≤ (splitLines (strL "x")).length) := by
  have hm : fileOverviewChunk (strL "x") (strL "a.txt") (strL "r")
      ∈ processFile (strL "x") (strL "a.txt") (strL "r") := by
    unfold processFile
    exact List.mem_cons_self _ _
  exact ⟨hm, chunk_line_ranges_within_file (strL "x") (strL "a.txt") (strL "r") _ hm⟩

/-- C2 counterexample: on the one-line file `function foo() { return 1; }`
the emitted chunk has `startLine = endLine = 1` but its content holds the
triggering line twice, so it is not "the file's lines from `startLine`
through `endLine`, each appended exactly once". -/
theorem extractCodeChunks_repeats_trigger_line_cex :
    (extractCodeChunks cexContent (strL "a.js") (strL "a.js") (strL "r"))
      = [cexChunk]
    ∧ cexChunk.startLine = 1 ∧ cexChunk.endLine = 1
    ∧ cexChunk.content ≠ claimedCodeChunkContent cexContent 1 1 := by
  refine ⟨by decide, rfl, rfl, by decide⟩

/-- C2 (amended): every chunk's content is its triggering line, a newline,
and then the rendering of the scanned segment that begins at the triggering
line: each scanned line lying outside block comments (this includes the
triggering line itself, which is therefore appended a second time) is
appended exactly once followed by a newline, while lines inside block
comments — including a line opening an unclosed `/*` — are skipped entirely;
the segment may extend past `endLine` (trailing blank or comment lines do not
advance `endLine`) but never past the end of the file. -/
theorem extractCodeChunks_content_characterization :
    ∀ (content filePath fileName repositoryName : Str),
      ∀ c ∈ extractCodeChunks content filePath fileName repositoryName,
        ∃ k, 1 ≤ c.startLine
          ∧ c.startLine - 1 + k ≤ (splitLines content).length
          ∧ c.content = (splitLines content).getD (c.startLine - 1) [] ++ ['\n']
              ++ renderScanSeg
                  (((splitLines content).drop (c.startLine - 1)).take k) false := by
  intro content fp fn rn c hc
  obtain ⟨_, ⟨h1, _, _⟩, k, hk, hcontent⟩ := extractCodeChunks_inv content fp fn rn c hc
  exact ⟨k, h1, hk, hcontent⟩

/-- Witness for the amended C2 at the concrete one-line file. -/
theorem extractCodeChunks_content_characterization_witness :
    cexChunk ∈ extractCodeChunks cexContent (strL "a.js") (strL "a.js") (strL "r")
    ∧ ∃ k, 1 ≤ cexChunk.startLine
        ∧ cexChunk.startLine - 1 + k ≤ (splitLines cexContent).length
        ∧ cexChunk.content
            = (splitLines cexContent).getD (cexChunk.startLine - 1) [] ++ ['\n']
              ++ renderScanSeg
                  (((splitLines cexContent).drop (cexChunk.startLine - 1)).take k)
                  false := by
  have hm : cexChunk ∈ extractCodeChunks cexContent (strL "a.js") (strL "a.js") (strL "r") := by
    decide
  exact ⟨hm, extractCodeChunks_content_characterization _ _ _ _ cexChunk hm⟩

/-- C10: a markdown file with no header line yields no documentation chunks;
every documentation chunk starts at a header line whose title is the chunk's
description, its content is exactly the lines from `startLine` through
`endLine`, and no chunk starts before the first header line (so content
preceding the first header appears in no documentation chunk). -/
theorem documentation_chunks_start_at_headers :
    ∀ (content filePath fileName repositoryName : Str),
      ((∀ l ∈ splitLines content, headerMatch l = none) →
        extractDocumentationChunks content filePath fileName repositoryName = [])
      ∧ (∀ c ∈ extractDocumentationChunks content filePath fileName repositoryName,
          (∃ title,
            headerMatch ((splitLines content).getD (c.startLine - 1) []) = some title
            ∧ c.description = some title)
          ∧ c.type = ChunkType.documentation
          ∧ 1 ≤ c.startLine ∧ c.startLine ≤ c.endLine
          ∧ c.endLine ≤ (splitLines content).length
          ∧ c.content = joinLinesNl
              (((splitLines content).drop (c.startLine - 1)).take
                (c.endLine + 1 - c.startLine))
          ∧ (splitLines content).findIdx
              (fun l => (headerMatch l).isSome) ≤ c.startLine - 1) := by
  intro content fp fn rn
  constructor
  · intro hall
    unfold extractDocumentationChunks
    exact docLoop_no_header fp fn rn (splitLines content) 1 [] hall
  · intro c hc
    obtain ⟨hty, hs1, hse, heN, ⟨title, hhm, hdesc⟩, hcontent⟩ :=
      extractDocumentationChunks_inv content fp fn rn c hc
    refine ⟨⟨title, hhm, hdesc⟩, hty, hs1, hse, heN, hcontent, ?_⟩
    refine findIdx_le_of_getD (splitLines content) (c.startLine - 1) (by omega) ?_
    rw [hhm]
    rfl

/-- Witness for C10 at a markdown fixture with preamble, one header and a
body line. -/
theorem documentation_chunks_start_at_headers_witness :
    docCexChunk ∈ extractDocumentationChunks docCexContent
      (strL "README.md") (strL "README.md") (strL "r")
    ∧ (∃ title,
        headerMatch ((splitLines docCexContent).getD (docCexChunk.startLine - 1) [])
          = some title
        ∧ docCexChunk.description = some title)
    ∧ (splitLines docCexContent).findIdx (fun l => (headerMatch l).isSome)
        ≤ docCexChunk.startLine - 1 := by
  have hm : docCexChunk ∈ extractDocumentationChunks docCexContent
      (strL "README.md") (strL "README.md") (strL "r") := by
    decide
  have h := (documentation_chunks_start_at_headers docCexContent
    (strL "README.md") (strL "README.md") (strL "r")).2 docCexChunk hm
  exact ⟨hm, h.1, h.2.2.2.2.2.2⟩

lemma topCommentsGo_length_le : ∀ ls : List Str, (topCommentsGo ls).length ≤ ls.length := by
  intro ls
  induction ls with
  | nil => simp [topCommentsGo]
  | cons l rest ih =>
    simp only [topCommentsGo]
    split
    · simp only [List.length_cons]
      omega
    · split
      · simp
      · simp only [List.length_cons]
        omega

lemma createFileOverview_decomp (content filePath : Str) :
    createFileOverview content filePath
      = (strL "File: " ++ filePath ++ ['\n'])
        ++ (strL "Total Lines: " ++ natStr (splitLines content).length)
        ++ (strL "\n\n"
          ++ (if 0 < (topComments (splitLines content)).length then
                strL "Comments:\n" ++ joinNl (topComments (splitLines content)) ++ ['\n']
              else [])
          ++ ['\n']
          ++ (if 0 < (importsOf (splitLines content)).length then
                strL "Imports/Dependencies:\n"
                  ++ joinNl (importsOf (splitLines content)) ++ ['\n']
              else [])
          ++ (strL "\n\nPreview:\n" ++ joinNl ((splitLines content).take 30))) := by
  unfold createFileOverview
  rw [show (strL "\nTotal Lines: ") = ['\n'] ++ strL "Total Lines: " from rfl]
  simp [List.append_assoc]

/-- C7: `processFile` emits exactly one `file_overview` chunk per file, with
`startLine = 1`, `endLine` = the file's line count, and content containing the
total line count, the (at most 10) import lines, the (at most 20) leading
comment lines collected by the comment scan, and the first 30 lines as a
preview. -/
theorem file_overview_unique_per_file :
    ∀ (content relativePath repositoryName : Str),
      (processFile content relativePath repositoryName).filter
          (fun c => decide (c.type = ChunkType.file_overview))
        = [fileOverviewChunk content relativePath repositoryName]
      ∧ (fileOverviewChunk content relativePath repositoryName).startLine = 1
      ∧ (fileOverviewChunk content relativePath repositoryName).endLine
          = (splitLines content).length
      ∧ (fileOverviewChunk content relativePath repositoryName).content
          = createFileOverview content relativePath
      ∧ (importsOf (splitLines content)).length ≤ 10
      ∧ (topComments (splitLines content)).length ≤ 20
      ∧ (∃ pre post, (fileOverviewChunk content relativePath repositoryName).content
          = pre ++ (strL "Total Lines: " ++ natStr (splitLines content).length) ++ post)
      ∧ (∃ pre, (fileOverviewChunk content relativePath repositoryName).content
          = pre ++ (strL "\n\nPreview:\n" ++ joinNl ((splitLines content).take 30))) := by
  intro content rp rn
  refine ⟨?_, rfl, rfl, rfl, ?_, ?_, ?_, ?_⟩
  · unfold processFile
    rw [List.filter_cons_of_pos (by simp [fileOverviewChunk])]
    have hnil : (if isCodeFile (jsToLower (extname rp)) then
          extractCodeChunks content rp (basename rp) rn
        else if jsToLower (extname rp) = strL ".md" then
          extractDocumentationChunks content rp (basename rp) rn
        else if jsToLower (extname rp) = strL ".json" then
          extractConfigChunks content rp (basename rp) rn
        else []).filter (fun c => decide (c.type = ChunkType.file_overview)) = [] := by
      rw [List.filter_eq_nil_iff]
      intro c hc
      split at hc
      · obtain ⟨hty, _, _⟩ := extractCodeChunks_inv content rp (basename rp) rn c hc
        rcases hty with h | h | h <;> simp [h]
      · split at hc
        · obtain ⟨hty, _⟩ := extractDocumentationChunks_inv content rp (basename rp) rn c hc
          simp [hty]
        · split at hc
          · have hty := extractConfigChunks_type content rp (basename rp) rn c hc
            simp [hty]
          · exact absurd hc (by simp)
    rw [hnil]
  · exact List.length_take_le 10 _
  · exact le_trans (topCommentsGo_length_le _) (List.length_take_le 20 _)
  · refine ⟨strL "File: " ++ rp ++ ['\n'],
      strL "\n\n"
        ++ (if 0 < (topComments (splitLines content)).length then
              strL "Comments:\n" ++ joinNl (topComments (splitLines content)) ++ ['\n']
            else [])
        ++ ['\n']
        ++ (if 0 < (importsOf (splitLines content)).length then
              strL "Imports/Dependencies:\n"
                ++ joinNl (importsOf (splitLines content)) ++ ['\n']
            else [])
        ++ (strL "\n\nPreview:\n" ++ joinNl ((splitLines content).take 30)), ?_⟩
    exact createFileOverview_decomp content rp
  · refine ⟨(strL "File: " ++ rp ++ ['\n'])
        ++ (strL "Total Lines: " ++ natStr (splitLines content).length)
        ++ (strL "\n\n"
          ++ (if 0 < (topComments (splitLines content)).length then
                strL "Comments:\n" ++ joinNl (topComments (splitLines content)) ++ ['\n']
              else [])
          ++ ['\n']
          ++ (if 0 < (importsOf (splitLines content)).length then
                strL "Imports/Dependencies:\n"
                  ++ joinNl (importsOf (splitLines content)) ++ ['\n']
              else [])), ?_⟩
    show createFileOverview content rp = _
    rw [createFileOverview_decomp content rp]
    simp [List.append_assoc]
